import Mathlib

/-!
Shallow embedding of the alfred network protocol core (src/recv.c and
src/send.c): the dataset store with provenance, the transaction
reassembler, the provenance-aware merge engine, the push scheduler and
the send failure handling, together with proofs of the behavioural
claims about them.

Machine integers are modelled as Nat/Int; the sizes taken from the
packed packet.h layouts are sizeof(struct alfred_tlv) = 4,
sizeof(struct alfred_push_data_v0) = sizeof(struct alfred_status_v0) = 8
and sizeof(struct alfred_data) = 10.  malloc is modelled by an oracle
alloc : Nat -> Bool consulted at an explicit call counter.
-/

/-- Hardware (MAC) addresses, 6 bytes on the wire, modelled as byte lists. -/
abbrev Mac := List Nat

/-- enum data_source. Modelled from the spec: the numeric values used by the
provenance comparison in push_data are declared in alfred.h, outside src/;
the spec orders provenance LOCAL above FIRST_HAND above SYNCED while
push_data keeps a dataset iff data_source <= max_source_level numerically,
so LOCAL = 0, FIRST_HAND = 1, SYNCED = 2. -/
inductive DataSource
  | SOURCE_LOCAL
  | SOURCE_FIRST_HAND
  | SOURCE_SYNCED
deriving DecidableEq

/-- The numeric value of a provenance level, as compared by push_data. -/
def DataSource.val : DataSource → Nat
  | .SOURCE_LOCAL => 0
  | .SOURCE_FIRST_HAND => 1
  | .SOURCE_SYNCED => 2

/-- Modelled from the spec: the operating mode enum of alfred.h, outside
src/. -/
inductive Opmode
  | OPMODE_SLAVE
  | OPMODE_MASTER
deriving DecidableEq

/-- struct dataset (alfred.h): one stored entry. The embedded alfred_data
header is flattened into the dtype, version and length fields; buf = none
models a NULL payload pointer. -/
structure Dataset where
  source : Mac
  dtype : Nat
  version : Nat
  length : Nat
  buf : Option (List Nat)
  data_source : DataSource
  last_seen : Nat
deriving DecidableEq

/-- struct alfred_data as carried inside a PUSH_DATA body: 6 source bytes, a
TLV header (type, version, 16-bit big-endian length) and length payload
bytes, parsed into host-order fields. -/
structure DataRecord where
  source : Mac
  dtype : Nat
  version : Nat
  length : Nat
  payload : List Nat
deriving DecidableEq

/-- struct alfred_push_data_v0 after ntohs: the TLV version and length, the
transaction id and seqno, and the body bytes that follow the tx field (the
records region). length counts the tx field (4 bytes) plus the records
region, exactly as the wire length field does. -/
structure PushData where
  version : Nat
  length : Nat
  tx_id : Nat
  seqno : Nat
  data : List Nat
deriving DecidableEq

/-- struct alfred_status_v0 after ntohs. -/
structure StatusPacket where
  version : Nat
  length : Nat
  tx_id : Nat
  seqno : Nat
deriving DecidableEq

/-- struct alfred_request_v0 after ntohs. -/
structure RequestPacket where
  version : Nat
  length : Nat
  requested_type : Nat
  tx_id : Nat
deriving DecidableEq

/-- struct alfred_announce_master_v0: just the TLV header. -/
structure AnnouncePacket where
  version : Nat
  length : Nat
deriving DecidableEq

/-- struct transaction_head (alfred.h, used throughout recv.c). -/
structure TransactionHead where
  server_addr : Mac
  id : Nat
  requested_type : Nat
  txend_packets : Nat
  num_packet : Nat
  client_socket : Int
  last_rx_time : Nat
  packet_list : List PushData
deriving DecidableEq

/-- struct server (alfred.h): one peer table entry. -/
structure Server where
  hwaddr : Mac
  address : Nat
  tq : Nat
  last_seen : Nat
deriving DecidableEq

/-- The parts of struct globals the protocol core reads and writes. -/
structure Globals where
  data_hash : List Dataset
  transaction_hash : List TransactionHead
  server_hash : List Server
  opmode : Opmode
deriving DecidableEq

/-- One inbound datagram after the codec established its type. -/
inductive Packet
  | push (p : PushData)
  | announce (a : AnnouncePacket)
  | request (r : RequestPacket)
  | txend (s : StatusPacket)
deriving DecidableEq

/-- The TLV version byte of a datagram, checked by recv_alfred_packet. -/
def Packet.version : Packet → Nat
  | .push p => p.version
  | .announce a => a.version
  | .request r => r.version
  | .txend s => s.version

/-- Modelled from the spec: the single supported protocol version byte
(packet.h, outside src/); its concrete value matters to no claim. -/
def ALFRED_VERSION : Nat := 0

/-- Modelled from the spec: NO_FILTER (alfred.h, outside src/), the sentinel
for an unfiltered push; requested types are unsigned bytes, so it is -1. -/
def NO_FILTER : Int := -1

/-- Allocation oracle that never fails: runs with enough memory. -/
def allocAll : Nat → Bool := fun _ => true

/-- hash_find on the dataset hash: first entry with the given type and
source address. -/
def data_find : List Dataset → Nat → Mac → Option Dataset
  | [], _, _ => none
  | d :: l, t, s => if d.dtype = t ∧ d.source = s then some d else data_find l t s

/-- In-place mutation of the found dataset entry: replace the first entry
with the given key by f of it. -/
def data_update : List Dataset → Nat → Mac → (Dataset → Dataset) → List Dataset
  | [], _, _, _ => []
  | d :: l, t, s, f =>
    if d.dtype = t ∧ d.source = s then f d :: l else d :: data_update l t s f

/-- hash_find on the transaction hash: first head with the given sender
address and transaction id. -/
def tx_find : List TransactionHead → Mac → Nat → Option TransactionHead
  | [], _, _ => none
  | h :: l, m, i => if h.server_addr = m ∧ h.id = i then some h else tx_find l m i

/-- In-place mutation of the found transaction head. -/
def tx_update : List TransactionHead → Mac → Nat →
    (TransactionHead → TransactionHead) → List TransactionHead
  | [], _, _, _ => []
  | h :: l, m, i, f =>
    if h.server_addr = m ∧ h.id = i then f h :: l else h :: tx_update l m i f

/-- hash_remove on the transaction hash: drop the first head with the key. -/
def tx_remove : List TransactionHead → Mac → Nat → List TransactionHead
  | [], _, _ => []
  | h :: l, m, i => if h.server_addr = m ∧ h.id = i then l else h :: tx_remove l m i

/-- hash_find on the per-interface server hash. -/
def server_find : List Server → Mac → Option Server
  | [], _ => none
  | sv :: l, m => if sv.hwaddr = m then some sv else server_find l m

/-- In-place mutation of the found server entry. -/
def server_update : List Server → Mac → (Server → Server) → List Server
  | [], _, _ => []
  | sv :: l, m, f => if sv.hwaddr = m then f sv :: l else sv :: server_update l m f

/-- The running state of the merge engine: the dataset store, the changed
signals emitted so far (by carried type) and the allocation counter. -/
structure MergeState where
  store : List Dataset
  changed : List Nat
  k : Nat
deriving DecidableEq

/-- What an inbound handler leaves behind: the globals, the changed signals
emitted, the allocation counter and the C return value. -/
structure HandlerResult where
  g : Globals
  changed : List Nat
  k : Nat
  ret : Int
deriving DecidableEq

/-- ntohs of the two bytes at offset i (big-endian); out-of-range reads
yield 0 and are never reached on well-formed input. -/
def read_u16_be (l : List Nat) (i : Nat) : Nat :=
  256 * l.getD i 0 + l.getD (i + 1) 0

/-- One iteration of the while loop in finish_alfred_push_data (recv.c,
lines 45-107): merge a single complete record into the store. Returns the
new state and whether processing may continue; false models goto err on a
malloc failure, after which the source leaves the entry as it stands:
payload freed (buf = none) with length forced to 0 when a buffer was freed,
or a freshly added entry that never received its payload buffer. hash_add
is modelled as always succeeding. On entry creation the source memcpys the
raw wire header into the new entry before overwriting it; that transient
value is only observable when the payload allocation then fails and is
modelled by the parsed host-order fields. -/
def merge_record (alloc : Nat → Bool) (now : Nat) (mac : Mac) (s : MergeState)
    (r : DataRecord) : MergeState × Bool :=
  match data_find s.store r.dtype r.source with
  | some ds0 =>
    if ds0.data_source = .SOURCE_LOCAL then (s, true)
    else
      let changed1 := if ds0.length ≠ r.length ∨ ds0.buf.getD [] ≠ r.payload
        then s.changed ++ [r.dtype] else s.changed
      let ds1 :=
        { ds0 with
          last_seen := now
          buf := none
          length := if ds0.buf.isSome then 0 else ds0.length }
      if alloc s.k then
        let ds2 :=
          { ds1 with
            buf := some r.payload
            length := r.length
            version := r.version
            data_source := if mac = r.source then DataSource.SOURCE_FIRST_HAND
              else DataSource.SOURCE_SYNCED }
        (⟨data_update s.store r.dtype r.source (fun _ => ds2), changed1, s.k + 1⟩, true)
      else
        (⟨data_update s.store r.dtype r.source (fun _ => ds1), changed1, s.k + 1⟩, false)
  | none =>
    if alloc s.k then
      let changed1 := s.changed ++ [r.dtype]
      if alloc (s.k + 1) then
        (⟨s.store ++
          [{ source := r.source
             dtype := r.dtype
             version := r.version
             length := r.length
             buf := some r.payload
             data_source := if mac = r.source then DataSource.SOURCE_FIRST_HAND
               else DataSource.SOURCE_SYNCED
             last_seen := now }], changed1, s.k + 2⟩, true)
      else
        (⟨s.store ++
          [{ source := r.source
             dtype := r.dtype
             version := r.version
             length := r.length
             buf := none
             data_source := DataSource.SOURCE_SYNCED
             last_seen := now }], changed1, s.k + 2⟩, false)
    else (⟨s.store, s.changed, s.k + 1⟩, false)

/-- The while loop of finish_alfred_push_data (recv.c, lines 45-107): walk
the records region of len bytes, merging each complete record; stop
silently on a truncated trailing record, abort (false) when an allocation
fails. -/
def merge_loop (alloc : Nat → Bool) (now : Nat) (mac : Mac) (s : MergeState)
    (bytes : List Nat) (len : Nat) : MergeState × Bool :=
  if h10 : 10 ≤ len then
    let data_len := read_u16_be bytes 8
    if hfit : data_len + 10 ≤ len then
      let r : DataRecord :=
        { source := bytes.take 6
          dtype := bytes.getD 6 0
          version := bytes.getD 7 0
          length := data_len
          payload := (bytes.drop 10).take data_len }
      match merge_record alloc now mac s r with
      | (s1, true) =>
        merge_loop alloc now mac s1 (bytes.drop (10 + data_len)) (len - (10 + data_len))
      | (s1, false) => (s1, false)
    else (s, true)
  else (s, true)
termination_by len
decreasing_by omega

/-- The record boundaries the same while loop walks, without the store
effects: the list of complete records a fragment body carries. -/
def parse_records (bytes : List Nat) (len : Nat) : List DataRecord :=
  if h10 : 10 ≤ len then
    let data_len := read_u16_be bytes 8
    if hfit : data_len + 10 ≤ len then
      { source := bytes.take 6
        dtype := bytes.getD 6 0
        version := bytes.getD 7 0
        length := data_len
        payload := (bytes.drop 10).take data_len } ::
        parse_records (bytes.drop (10 + data_len)) (len - (10 + data_len))
    else []
  else []
termination_by len
decreasing_by omega

/-- finish_alfred_push_data (recv.c, lines 27-111): re-check the header
length, then merge the records region; -1 on a short header or on an
allocation failure. -/
def finish_alfred_push_data (alloc : Nat → Bool) (now : Nat) (mac : Mac)
    (s : MergeState) (push : PushData) : MergeState × Int :=
  if push.length < 4 then (s, -1)
  else
    match merge_loop alloc now mac s push.data (push.length - 4) with
    | (s1, true) => (s1, 0)
    | (s1, false) => (s1, -1)

/-- Modelled from the spec: transaction_finished is declared in alfred.h,
outside src/. Section 9 of the spec records what the source does: a known
transaction whose stored expected final seqno is 0 completes exactly when
zero fragments have arrived, i.e. the source tests plain equality between
the stored txend seqno and the received count. -/
def transaction_finished (head : TransactionHead) : Bool :=
  head.txend_packets == head.num_packet

/-- The completion predicate as section 4.2 of the spec words it, kept as a
separate definition to compare with the modelled source predicate. -/
def transaction_finished_spec42 (head : TransactionHead) : Bool :=
  (head.txend_packets != 0) && (head.num_packet == head.txend_packets)

/-- transaction_add (recv.c, lines 113-136): allocate and insert a fresh
transaction head; returns the table, whether the head was created, and the
allocation counter (hash_add modelled as always succeeding). -/
def transaction_add (alloc : Nat → Bool) (k : Nat) (txs : List TransactionHead)
    (mac : Mac) (id : Nat) (now : Nat) : List TransactionHead × Bool × Nat :=
  if alloc k then
    (txs ++
      [{ server_addr := mac
         id := id
         requested_type := 0
         txend_packets := 0
         num_packet := 0
         client_socket := -1
         last_rx_time := now
         packet_list := [] }],
     true, k + 1)
  else (txs, false, k + 1)

/-- transaction_clean (recv.c, lines 138-152): free the fragments and
remove the head from the table. -/
def transaction_clean (txs : List TransactionHead) (mac : Mac) (id : Nat) :
    List TransactionHead :=
  tx_remove txs mac id

/-- finish_alfred_transaction (recv.c, lines 154-181): when the transaction
is finished, deliver every stored fragment to the merge engine in insertion
order (the per-fragment return value is ignored, as in the source), then
remove the head. Returns 1 when the transaction completed, 0 otherwise. -/
def finish_alfred_transaction (alloc : Nat → Bool) (now : Nat) (g : Globals)
    (changed : List Nat) (k : Nat) (mac : Mac) (id : Nat) : HandlerResult :=
  match tx_find g.transaction_hash mac id with
  | none => ⟨g, changed, k, 0⟩
  | some head =>
    if transaction_finished head then
      let ms := head.packet_list.foldl
        (fun ms p => (finish_alfred_push_data alloc now mac ms p).1)
        ⟨g.data_hash, changed, k⟩
      ⟨{ g with
         data_hash := ms.store
         transaction_hash := transaction_clean g.transaction_hash mac id },
       ms.changed, ms.k, 1⟩
    else ⟨g, changed, k, 0⟩

/-- Tail of process_alfred_push_data (recv.c, lines 220-250) once the
transaction head for (mac, tx_id) is in the table: refresh last_rx_time,
drop duplicates by seqno, store a copy of the fragment (the copy keeps
header plus length bytes), bump num_packet and try to finish. -/
def push_data_into_transaction (alloc : Nat → Bool) (k : Nat) (now : Nat)
    (g : Globals) (mac : Mac) (push : PushData) : HandlerResult :=
  let txs1 := tx_update g.transaction_hash mac push.tx_id
    (fun h => { h with last_rx_time := now })
  let g1 := { g with transaction_hash := txs1 }
  match tx_find txs1 mac push.tx_id with
  | none => ⟨g1, [], k, -1⟩
  | some head =>
    if (head.packet_list.find? (fun p => p.seqno == push.seqno)).isSome then
      ⟨g1, [], k, 0⟩
    else if ¬ alloc k then ⟨g1, [], k + 1, -1⟩
    else if ¬ alloc (k + 1) then ⟨g1, [], k + 2, -1⟩
    else
      let stored : PushData := { push with data := push.data.take (push.length - 4) }
      let g2 :=
        { g1 with
          transaction_hash := tx_update txs1 mac push.tx_id
            (fun h =>
              { h with
                packet_list := h.packet_list ++ [stored]
                num_packet := h.num_packet + 1 }) }
      let r := finish_alfred_transaction alloc now g2 [] (k + 2) mac push.tx_id
      ⟨r.g, r.changed, r.k, 0⟩

/-- process_alfred_push_data (recv.c, lines 183-253): address resolution is
modelled by the mac argument; check the header length, look up or (master
only) create the transaction, then store the fragment. -/
def process_alfred_push_data (alloc : Nat → Bool) (k : Nat) (now : Nat)
    (g : Globals) (mac : Mac) (push : PushData) : HandlerResult :=
  if push.length < 4 then ⟨g, [], k, -1⟩
  else
    match tx_find g.transaction_hash mac push.tx_id with
    | some _ => push_data_into_transaction alloc k now g mac push
    | none =>
      if g.opmode ≠ .OPMODE_MASTER then ⟨g, [], k, -1⟩
      else
        let add := transaction_add alloc k g.transaction_hash mac push.tx_id now
        if add.2.1 then
          push_data_into_transaction alloc add.2.2 now
            { g with transaction_hash := add.1 } mac push
        else ⟨g, [], add.2.2, -1⟩

/-- Tail of process_alfred_status_txend (recv.c, lines 363-368) once the
head exists: refresh last_rx_time, record the expected final seqno and try
to finish. -/
def txend_into_transaction (alloc : Nat → Bool) (k : Nat) (now : Nat)
    (g : Globals) (mac : Mac) (st : StatusPacket) : HandlerResult :=
  let txs1 := tx_update g.transaction_hash mac st.tx_id
    (fun h =>
      { h with
        last_rx_time := now
        txend_packets := st.seqno })
  let r := finish_alfred_transaction alloc now
    { g with transaction_hash := txs1 } [] k mac st.tx_id
  ⟨r.g, r.changed, r.k, 0⟩

/-- process_alfred_status_txend (recv.c, lines 320-371): version and length
checks, then look up or (master only, and only for a nonzero seqno) create
the transaction, record the expected count and try to finish. -/
def process_alfred_status_txend (alloc : Nat → Bool) (k : Nat) (now : Nat)
    (g : Globals) (mac : Mac) (st : StatusPacket) : HandlerResult :=
  if st.version ≠ ALFRED_VERSION then ⟨g, [], k, -1⟩
  else if st.length < 4 then ⟨g, [], k, -1⟩
  else
    match tx_find g.transaction_hash mac st.tx_id with
    | some _ => txend_into_transaction alloc k now g mac st
    | none =>
      if g.opmode ≠ .OPMODE_MASTER then ⟨g, [], k, -1⟩
      else if st.seqno = 0 then ⟨g, [], k, -1⟩
      else
        let add := transaction_add alloc k g.transaction_hash mac st.tx_id now
        if add.2.1 then
          txend_into_transaction alloc add.2.2 now
            { g with transaction_hash := add.1 } mac st
        else ⟨g, [], add.2.2, -1⟩

/-- The arguments process_alfred_request hands to push_data. -/
structure PushCall where
  max_source_level : DataSource
  type_filter : Int
  tx_id : Nat
deriving DecidableEq

/-- process_alfred_request (recv.c, lines 299-318): after the version and
length checks it always invokes push_data toward the requester with
SOURCE_SYNCED, the requested type and the request's tx id; the operating
mode is never consulted. Returns the push_data call made, if any, and the
return code. -/
def process_alfred_request (g : Globals) (req : RequestPacket) :
    Option PushCall × Int :=
  if req.version ≠ ALFRED_VERSION then (none, -1)
  else if req.length < 3 then (none, -1)
  else (some ⟨DataSource.SOURCE_SYNCED, Int.ofNat req.requested_type, req.tx_id⟩, 0)

/-- process_alfred_announce_master (recv.c, lines 255-297): version check,
then create the server entry if needed and refresh its last_seen. -/
def process_alfred_announce_master (alloc : Nat → Bool) (k : Nat) (now : Nat)
    (g : Globals) (mac : Mac) (address : Nat) (a : AnnouncePacket) : HandlerResult :=
  if a.version ≠ ALFRED_VERSION then ⟨g, [], k, -1⟩
  else
    match server_find g.server_hash mac with
    | some _ =>
      ⟨{ g with
         server_hash :=
           server_update g.server_hash mac (fun sv => { sv with last_seen := now }) },
       [], k, 0⟩
    | none =>
      if alloc k then
        ⟨{ g with server_hash := g.server_hash ++
            [{ hwaddr := mac, address := address, tq := 0, last_seen := now }] },
         [], k + 1, 0⟩
      else ⟨g, [], k + 1, -1⟩

/-- The dispatch switch of recv_alfred_packet (recv.c, lines 373-453):
version gate, then the per-type handler. Socket reads, the truncation
checks on the raw datagram and the own-address check happen before this
point and are not modelled; the mac argument stands for a successful
address resolution. The announce source address matters to no claim and is
passed as 0. -/
def recv_alfred_packet (alloc : Nat → Bool) (k : Nat) (now : Nat) (g : Globals)
    (mac : Mac) (pkt : Packet) : HandlerResult :=
  if pkt.version ≠ ALFRED_VERSION then ⟨g, [], k, -1⟩
  else
    match pkt with
    | .push p => process_alfred_push_data alloc k now g mac p
    | .announce a => process_alfred_announce_master alloc k now g mac 0 a
    | .request r =>
      let pr := process_alfred_request g r
      ⟨g, [], k, pr.2⟩
    | .txend s => process_alfred_status_txend alloc k now g mac s

/-- Fold recv_alfred_packet over a sequence of inbound packets, threading
the globals and the allocation counter. -/
def recv_sequence (alloc : Nat → Bool) :
    Globals × Nat → List (Nat × Mac × Packet) → Globals × Nat
  | s, [] => s
  | (g, k), (now, mac, pkt) :: rest =>
    let r := recv_alfred_packet alloc k now g mac pkt
    recv_sequence alloc (r.g, r.k) rest

/-- The records a stored fragment delivers when merged: none when its header
length is short, otherwise the complete records of its body region. -/
def fragment_records (p : PushData) : List DataRecord :=
  if p.length < 4 then [] else parse_records p.data (p.length - 4)

/-- All records a transaction's fragments deliver, in insertion order. -/
def transaction_records (head : TransactionHead) : List DataRecord :=
  (head.packet_list.map fragment_records).flatten

/-- The store entry a successful merge of record r from sender mac at
instant now produces. -/
def merged_dataset (now : Nat) (mac : Mac) (r : DataRecord) : Dataset :=
  { source := r.source
    dtype := r.dtype
    version := r.version
    length := r.length
    buf := some r.payload
    data_source := if mac = r.source then DataSource.SOURCE_FIRST_HAND
      else DataSource.SOURCE_SYNCED
    last_seen := now }

/-- On-the-wire record size: 6 source bytes, 4 TLV bytes, then the payload
(sizeof(struct alfred_data) = 10). -/
def record_wire_size (r : DataRecord) : Nat := 10 + r.length

/-- A datagram push_data emits. -/
inductive OutPacket
  | push_frag (tx_id : Nat) (seqno : Nat) (records : List DataRecord)
  | status_txend (tx_id : Nat) (seqno : Nat)
deriving DecidableEq

/-- The on-wire length of an emitted datagram: 8 header bytes plus the
aggregated records for PUSH_DATA (sizeof(*push) + total_length in the
source), 8 bytes for STATUS_TXEND. -/
def OutPacket.wire_length : OutPacket → Nat
  | .push_frag _ _ rs => 8 + (rs.map record_wire_size).sum
  | .status_txend _ _ => 8

/-- Whether an emitted datagram is a PUSH_DATA fragment. -/
def OutPacket.is_push_frag : OutPacket → Bool
  | .push_frag _ _ _ => true
  | .status_txend _ _ => false

/-- The loop state of push_data: the records aggregated in the buffer, their
total_length, the next seqno and the datagrams emitted so far. -/
structure PushState where
  buffer : List DataRecord
  total_length : Nat
  seqno : Nat
  out : List OutPacket
deriving DecidableEq

/-- Emit the aggregated buffer as one PUSH_DATA fragment (send.c, lines
76-82 and 99-106). -/
def push_flush (tx_id : Nat) (st : PushState) : PushState :=
  { buffer := []
    total_length := 0
    seqno := st.seqno + 1
    out := st.out ++ [OutPacket.push_frag tx_id st.seqno st.buffer] }

/-- One iteration of the store walk in push_data (send.c, lines 58-97):
provenance and type filters, flush-when-full, skip a record that alone
cannot fit, append otherwise. maxPayload stands for MAX_PAYLOAD, a constant
defined outside src/. -/
def push_data_step (maxPayload : Nat) (max_source_level : DataSource)
    (type_filter : Int) (tx_id : Nat) (st : PushState) (ds : Dataset) : PushState :=
  if ds.data_source.val > max_source_level.val then st
  else if 0 ≤ type_filter ∧ Int.ofNat ds.dtype ≠ type_filter then st
  else
    let st1 :=
      if st.total_length + ds.length + 10 > maxPayload - 8 then
        if st.total_length = 0 then st else push_flush tx_id st
      else st
    if st1.total_length + ds.length + 10 > maxPayload - 8 then st1
    else
      { st1 with
        buffer := st1.buffer ++
          [{ source := ds.source
             dtype := ds.dtype
             version := ds.version
             length := ds.length
             payload := (ds.buf.getD []).take ds.length }]
        total_length := st1.total_length + ds.length + 10 }

/-- push_data (send.c, lines 39-123): walk the store aggregating eligible
datasets into MTU-bounded PUSH_DATA fragments, emit the trailing buffer,
then emit STATUS_TXEND when any fragment went out or a type filter was
given. -/
def push_data (maxPayload : Nat) (store : List Dataset)
    (max_source_level : DataSource) (type_filter : Int) (tx_id : Nat) :
    List OutPacket :=
  let st := store.foldl
    (push_data_step maxPayload max_source_level type_filter tx_id)
    ⟨[], 0, 0, []⟩
  let st1 := if st.total_length ≠ 0 then push_flush tx_id st else st
  if 0 < st1.seqno ∨ type_filter ≠ NO_FILTER then
    st1.out ++ [OutPacket.status_txend tx_id st1.seqno]
  else st1.out

/-- A dataset passes the provenance and type filters of push_data. -/
def push_matches (max_source_level : DataSource) (type_filter : Int)
    (ds : Dataset) : Prop :=
  ds.data_source.val ≤ max_source_level.val ∧
    (0 ≤ type_filter → Int.ofNat ds.dtype = type_filter)

/-- Linux errno EPERM; the errno-base values are fixed by the platform ABI. -/
def EPERM : Int := 1

/-- The two sockets of a sending interface; -1 marks a closed socket. -/
structure NetIface where
  netsock : Int
  netsock_mcast : Int
deriving DecidableEq

/-- send_alfred_packet (send.c, lines 160-201): the libc sendto result is an
oracle argument (-1 on any failure, with the reason left in errno, which the
source never reads; errnoVal records that reason only to show the behaviour
is independent of it). When the result equals -EPERM both sockets are
closed and marked unusable. -/
def send_alfred_packet (iface : NetIface) (sendto_ret : Int) (errnoVal : Nat) :
    NetIface × Int :=
  if iface.netsock < 0 then (iface, 0)
  else if sendto_ret = -EPERM then
    ({ netsock := -1, netsock_mcast := -1 }, sendto_ret)
  else (iface, sendto_ret)
/-- The single-step fold of the merge engine over parsed records. -/
def merge_fold (now : Nat) (mac : Mac) (s : MergeState)
    (recs : List DataRecord) : MergeState :=
  recs.foldl (fun acc r => (merge_record allocAll now mac acc r).1) s

/-- MTU invariant of the push_data loop state: the buffer records sum to
total_length, the buffer fits under MAX_PAYLOAD - sizeof(push), every
emitted datagram fits under MAX_PAYLOAD, and every record aggregated
anywhere fits by itself. -/
def push_mtu_inv (maxPayload : Nat) (st : PushState) : Prop :=
  (st.buffer.map record_wire_size).sum = st.total_length
  ∧ st.total_length ≤ maxPayload - 8
  ∧ (∀ p, p ∈ st.out → p.wire_length ≤ maxPayload)
  ∧ (∀ tid2 sq rs, OutPacket.push_frag tid2 sq rs ∈ st.out →
      ∀ r, r ∈ rs → record_wire_size r ≤ maxPayload - 8)
  ∧ (∀ r, r ∈ st.buffer → record_wire_size r ≤ maxPayload - 8)

/-- Counting invariant of the push_data loop state: seqno counts the
emitted fragments and only PUSH_DATA fragments are emitted by the loop. -/
def push_count_inv (st : PushState) : Prop :=
  st.seqno = (st.out.filter (fun p => p.is_push_frag)).length
  ∧ (∀ p, p ∈ st.out → p.is_push_frag = true)

/-- A handler run created a transaction record under key (m, i): the key
was absent before and is present afterwards. -/
def creates_transaction (before after : List TransactionHead) (m : Mac) (i : Nat) :
    Prop :=
  tx_find before m i = none ∧ (tx_find after m i).isSome = true


/-! ### Table lemmas -/

theorem data_find_some_key {l : List Dataset} {t : Nat} {s : Mac} {d : Dataset}
    (h : data_find l t s = some d) : d.dtype = t ∧ d.source = s := by
  induction l with
  | nil => simp [data_find] at h
  | cons a l ih =>
    rw [data_find] at h
    split at h
    next hk => injection h with h2; subst h2; exact hk
    next hk => exact ih h

theorem data_find_append {l : List Dataset} {t : Nat} {s : Mac} {d : Dataset}
    (x : Dataset) (h : data_find l t s = some d) :
    data_find (l ++ [x]) t s = some d := by
  induction l with
  | nil => simp [data_find] at h
  | cons a l ih =>
    rw [data_find] at h
    rw [List.cons_append, data_find]
    split
    next hk => rw [if_pos hk] at h; exact h
    next hk => rw [if_neg hk] at h; exact ih h

theorem data_find_append_none {l : List Dataset} {t : Nat} {s : Mac}
    (x : Dataset) (h : data_find l t s = none) :
    data_find (l ++ [x]) t s = if x.dtype = t ∧ x.source = s then some x else none := by
  induction l with
  | nil => simp [data_find]
  | cons a l ih =>
    rw [data_find] at h
    rw [List.cons_append, data_find]
    split
    next hk => rw [if_pos hk] at h; exact absurd h (by simp)
    next hk => rw [if_neg hk] at h; exact ih h

theorem data_find_update_self {l : List Dataset} {t : Nat} {s : Mac} {d : Dataset}
    {f : Dataset → Dataset} (h : data_find l t s = some d)
    (hf : (f d).dtype = t ∧ (f d).source = s) :
    data_find (data_update l t s f) t s = some (f d) := by
  induction l with
  | nil => simp [data_find] at h
  | cons a l ih =>
    rw [data_find] at h
    rw [data_update]
    split
    next hk =>
      rw [if_pos hk] at h
      injection h with h2; subst h2
      rw [data_find, if_pos hf]
    next hk =>
      rw [if_neg hk] at h
      rw [data_find, if_neg hk]
      exact ih h

theorem data_find_update_other {l : List Dataset} {t t' : Nat} {s s' : Mac}
    {f : Dataset → Dataset}
    (hf : ∀ d, d.dtype = t → d.source = s → (f d).dtype = t ∧ (f d).source = s)
    (hne : ¬ (t' = t ∧ s' = s)) :
    data_find (data_update l t s f) t' s' = data_find l t' s' := by
  induction l with
  | nil => simp [data_update]
  | cons a l ih =>
    rw [data_update]
    split
    next hk =>
      rw [data_find, data_find]
      have hfa := hf a hk.1 hk.2
      have h1 : ¬ ((f a).dtype = t' ∧ (f a).source = s') := by
        intro hc
        exact hne ⟨hc.1.symm.trans hfa.1, hc.2.symm.trans hfa.2⟩
      have h2 : ¬ (a.dtype = t' ∧ a.source = s') := by
        intro hc
        exact hne ⟨hc.1.symm.trans hk.1, hc.2.symm.trans hk.2⟩
      rw [if_neg h1, if_neg h2]
    next hk =>
      rw [data_find, data_find]
      split
      next => rfl
      next => exact ih

theorem tx_find_some_key {l : List TransactionHead} {m : Mac} {i : Nat}
    {h : TransactionHead} (hf : tx_find l m i = some h) :
    h.server_addr = m ∧ h.id = i := by
  induction l with
  | nil => simp [tx_find] at hf
  | cons a l ih =>
    rw [tx_find] at hf
    split at hf
    next hk => injection hf with h2; subst h2; exact hk
    next hk => exact ih hf

theorem tx_find_append {l : List TransactionHead} {m : Mac} {i : Nat}
    {h : TransactionHead} (x : TransactionHead) (hf : tx_find l m i = some h) :
    tx_find (l ++ [x]) m i = some h := by
  induction l with
  | nil => simp [tx_find] at hf
  | cons a l ih =>
    rw [tx_find] at hf
    rw [List.cons_append, tx_find]
    split
    next hk => rw [if_pos hk] at hf; exact hf
    next hk => rw [if_neg hk] at hf; exact ih hf

theorem tx_find_append_none {l : List TransactionHead} {m : Mac} {i : Nat}
    (x : TransactionHead) (hf : tx_find l m i = none) :
    tx_find (l ++ [x]) m i =
      if x.server_addr = m ∧ x.id = i then some x else none := by
  induction l with
  | nil => simp [tx_find]
  | cons a l ih =>
    rw [tx_find] at hf
    rw [List.cons_append, tx_find]
    split
    next hk => rw [if_pos hk] at hf; exact absurd hf (by simp)
    next hk => rw [if_neg hk] at hf; exact ih hf

theorem tx_find_update_self {l : List TransactionHead} {m : Mac} {i : Nat}
    {h : TransactionHead} {f : TransactionHead → TransactionHead}
    (hf : tx_find l m i = some h)
    (hk : (f h).server_addr = m ∧ (f h).id = i) :
    tx_find (tx_update l m i f) m i = some (f h) := by
  induction l with
  | nil => simp [tx_find] at hf
  | cons a l ih =>
    rw [tx_find] at hf
    rw [tx_update]
    split
    next hc =>
      rw [if_pos hc] at hf
      injection hf with h2; subst h2
      rw [tx_find, if_pos hk]
    next hc =>
      rw [if_neg hc] at hf
      rw [tx_find, if_neg hc]
      exact ih hf

theorem tx_find_update_other {l : List TransactionHead} {m m' : Mac} {i i' : Nat}
    {f : TransactionHead → TransactionHead}
    (hf : ∀ h, h.server_addr = m → h.id = i →
      (f h).server_addr = m ∧ (f h).id = i)
    (hne : ¬ (m' = m ∧ i' = i)) :
    tx_find (tx_update l m i f) m' i' = tx_find l m' i' := by
  induction l with
  | nil => simp [tx_update]
  | cons a l ih =>
    rw [tx_update]
    split
    next hk =>
      rw [tx_find, tx_find]
      have hfa := hf a hk.1 hk.2
      have h1 : ¬ ((f a).server_addr = m' ∧ (f a).id = i') := by
        intro hc
        exact hne ⟨hc.1.symm.trans hfa.1, hc.2.symm.trans hfa.2⟩
      have h2 : ¬ (a.server_addr = m' ∧ a.id = i') := by
        intro hc
        exact hne ⟨hc.1.symm.trans hk.1, hc.2.symm.trans hk.2⟩
      rw [if_neg h1, if_neg h2]
    next hk =>
      rw [tx_find, tx_find]
      split
      next => rfl
      next => exact ih

theorem tx_find_remove_isSome {l : List TransactionHead} {m m' : Mac} {i i' : Nat}
    (h : (tx_find (tx_remove l m i) m' i').isSome = true) :
    (tx_find l m' i').isSome = true := by
  induction l with
  | nil => simpa [tx_remove] using h
  | cons a l ih =>
    rw [tx_remove] at h
    rw [tx_find]
    split
    next => rfl
    next hk =>
      by_cases hc : a.server_addr = m ∧ a.id = i
      · rw [if_pos hc] at h
        exact h
      · rw [if_neg hc, tx_find, if_neg hk] at h
        exact ih h

/-! ### Merge engine lemmas -/

theorem data_find_append_other {l : List Dataset} {t : Nat} {s : Mac}
    {x : Dataset} (hx : ¬ (x.dtype = t ∧ x.source = s)) :
    data_find (l ++ [x]) t s = data_find l t s := by
  cases hf : data_find l t s with
  | some d => exact data_find_append x hf
  | none => rw [data_find_append_none x hf, if_neg hx]

theorem merge_record_local_skip {alloc : Nat → Bool} {now : Nat} {mac : Mac}
    {s : MergeState} {r : DataRecord} {d : Dataset}
    (hfind : data_find s.store r.dtype r.source = some d)
    (hl : d.data_source = .SOURCE_LOCAL) :
    merge_record alloc now mac s r = (s, true) := by
  unfold merge_record
  rw [hfind]
  simp [hl]

theorem merge_record_other_key {alloc : Nat → Bool} {now : Nat} {mac : Mac}
    {s : MergeState} {r : DataRecord} {t : Nat} {src : Mac}
    (hne : ¬ (t = r.dtype ∧ src = r.source)) :
    data_find (merge_record alloc now mac s r).1.store t src
      = data_find s.store t src := by
  unfold merge_record
  cases hfind : data_find s.store r.dtype r.source with
  | some ds0 =>
    have hkey := data_find_some_key hfind
    by_cases hl : ds0.data_source = DataSource.SOURCE_LOCAL
    · simp [hl]
    · simp only [hl, if_false, ite_false]
      split
      · exact data_find_update_other (fun d _ _ => ⟨hkey.1, hkey.2⟩) hne
      · exact data_find_update_other (fun d _ _ => ⟨hkey.1, hkey.2⟩) hne
  | none =>
    by_cases ha : alloc s.k = true
    · by_cases hb : alloc (s.k + 1) = true
      · simp only [ha, hb, if_true]
        exact data_find_append_other (fun hc => hne ⟨hc.1.symm, hc.2.symm⟩)
      · simp only [ha, hb, if_true, if_false]
        exact data_find_append_other (fun hc => hne ⟨hc.1.symm, hc.2.symm⟩)
    · simp only [ha, Bool.false_eq_true, if_false]

theorem merge_record_preserves_local {alloc : Nat → Bool} {now : Nat} {mac : Mac}
    {s : MergeState} {r : DataRecord} {t : Nat} {src : Mac} {d : Dataset}
    (hfind : data_find s.store t src = some d)
    (hl : d.data_source = .SOURCE_LOCAL) :
    data_find (merge_record alloc now mac s r).1.store t src = some d := by
  by_cases hk : t = r.dtype ∧ src = r.source
  · obtain ⟨h1, h2⟩ := hk
    subst h1; subst h2
    rw [merge_record_local_skip hfind hl]
    exact hfind
  · rw [merge_record_other_key hk]
    exact hfind

theorem merge_record_allocAll_ok {now : Nat} {mac : Mac} {s : MergeState}
    {r : DataRecord} : (merge_record allocAll now mac s r).2 = true := by
  unfold merge_record
  cases hfind : data_find s.store r.dtype r.source with
  | some ds0 =>
    by_cases hl : ds0.data_source = DataSource.SOURCE_LOCAL
    · simp [hl]
    · simp [hl, allocAll]
  | none => simp [allocAll]

theorem merge_record_preserves_notlocal {alloc : Nat → Bool} {now : Nat}
    {mac : Mac} {s : MergeState} {r : DataRecord} {t : Nat} {src : Mac}
    (h : ∀ d, data_find s.store t src = some d → d.data_source ≠ .SOURCE_LOCAL) :
    ∀ d, data_find (merge_record alloc now mac s r).1.store t src = some d →
      d.data_source ≠ .SOURCE_LOCAL := by
  intro d hd
  by_cases hk : t = r.dtype ∧ src = r.source
  · obtain ⟨h1, h2⟩ := hk
    subst h1; subst h2
    unfold merge_record at hd
    cases hfind : data_find s.store r.dtype r.source with
    | some ds0 =>
      rw [hfind] at hd
      have hkey := data_find_some_key hfind
      have hl : ds0.data_source ≠ DataSource.SOURCE_LOCAL := h ds0 hfind
      simp only [hl, if_false, ite_false] at hd
      by_cases ha : alloc s.k = true
      · simp only [ha, if_true] at hd
        rw [data_find_update_self hfind ⟨hkey.1, hkey.2⟩] at hd
        injection hd with hd2
        subst hd2
        simp only []
        split
        · intro hc; cases hc
        · intro hc; cases hc
      · simp only [ha, Bool.false_eq_true, if_false] at hd
        rw [data_find_update_self hfind ⟨hkey.1, hkey.2⟩] at hd
        injection hd with hd2
        subst hd2
        exact hl
    | none =>
      rw [hfind] at hd
      by_cases ha : alloc s.k = true
      · by_cases hb : alloc (s.k + 1) = true
        · simp only [ha, hb, if_true] at hd
          rw [data_find_append_none _ hfind, if_pos ⟨rfl, rfl⟩] at hd
          injection hd with hd2
          subst hd2
          simp only []
          split
          · intro hc; cases hc
          · intro hc; cases hc
        · simp only [ha, hb, if_true, Bool.false_eq_true, if_false] at hd
          rw [data_find_append_none _ hfind, if_pos ⟨rfl, rfl⟩] at hd
          injection hd with hd2
          subst hd2
          intro hc; cases hc
      · simp only [ha, Bool.false_eq_true, if_false] at hd
        exact h d hd
  · rw [merge_record_other_key hk] at hd
    exact h d hd

theorem merge_record_sets {now : Nat} {mac : Mac} {s : MergeState} {r : DataRecord}
    (h : ∀ d, data_find s.store r.dtype r.source = some d →
      d.data_source ≠ .SOURCE_LOCAL) :
    data_find (merge_record allocAll now mac s r).1.store r.dtype r.source
      = some (merged_dataset now mac r) := by
  unfold merge_record
  cases hfind : data_find s.store r.dtype r.source with
  | some ds0 =>
    have hkey := data_find_some_key hfind
    have hl : ds0.data_source ≠ DataSource.SOURCE_LOCAL := h ds0 hfind
    simp only [hl, if_false, ite_false, allocAll, if_true]
    rw [data_find_update_self hfind ⟨hkey.1, hkey.2⟩]
    unfold merged_dataset
    congr 1
    obtain ⟨h1, h2⟩ := hkey
    cases ds0
    simp only at h1 h2
    simp [h1, h2]
  | none =>
    simp only [allocAll, if_true]
    rw [data_find_append_none _ hfind, if_pos ⟨rfl, rfl⟩]
    rfl

theorem merge_loop_allocAll {now : Nat} {mac : Mac} :
    ∀ (len : Nat) (bytes : List Nat) (s : MergeState),
    merge_loop allocAll now mac s bytes len
      = (merge_fold now mac s (parse_records bytes len), true) := by
  intro len
  induction len using Nat.strong_induction_on with
  | _ len ih =>
    intro bytes s
    rw [merge_loop.eq_def, parse_records.eq_def]
    by_cases h10 : 10 ≤ len
    · rw [dif_pos h10, dif_pos h10]
      by_cases hfit : read_u16_be bytes 8 + 10 ≤ len
      · rw [dif_pos hfit, dif_pos hfit]
        cases hmr : merge_record allocAll now mac s
            { source := bytes.take 6, dtype := bytes.getD 6 0,
              version := bytes.getD 7 0, length := read_u16_be bytes 8,
              payload := (bytes.drop 10).take (read_u16_be bytes 8) } with
        | mk s1 ok =>
          cases ok with
          | true =>
            have hlt : len - (10 + read_u16_be bytes 8) < len := by omega
            dsimp only
            rw [hmr]
            dsimp only
            rw [ih _ hlt]
            rw [merge_fold, merge_fold, List.foldl_cons, hmr]
          | false =>
            have := @merge_record_allocAll_ok now mac s
              { source := bytes.take 6, dtype := bytes.getD 6 0,
                version := bytes.getD 7 0, length := read_u16_be bytes 8,
                payload := (bytes.drop 10).take (read_u16_be bytes 8) }
            rw [hmr] at this
            cases this
      · rw [dif_neg hfit, dif_neg hfit]
        rfl
    · rw [dif_neg h10, dif_neg h10]
      rfl

theorem merge_loop_preserves_local {alloc : Nat → Bool} {now : Nat} {mac : Mac}
    {t : Nat} {src : Mac} {d : Dataset} :
    ∀ (len : Nat) (bytes : List Nat) (s : MergeState),
    data_find s.store t src = some d → d.data_source = .SOURCE_LOCAL →
    data_find (merge_loop alloc now mac s bytes len).1.store t src = some d := by
  intro len
  induction len using Nat.strong_induction_on with
  | _ len ih =>
    intro bytes s hfind hl
    rw [merge_loop.eq_def]
    by_cases h10 : 10 ≤ len
    · rw [dif_pos h10]
      by_cases hfit : read_u16_be bytes 8 + 10 ≤ len
      · rw [dif_pos hfit]
        dsimp only
        cases hmr : merge_record alloc now mac s
            { source := bytes.take 6, dtype := bytes.getD 6 0,
              version := bytes.getD 7 0, length := read_u16_be bytes 8,
              payload := (bytes.drop 10).take (read_u16_be bytes 8) } with
        | mk s1 ok =>
          have h2 := @merge_record_preserves_local alloc now mac s
            { source := bytes.take 6, dtype := bytes.getD 6 0,
              version := bytes.getD 7 0, length := read_u16_be bytes 8,
              payload := (bytes.drop 10).take (read_u16_be bytes 8) }
            t src d hfind hl
          rw [hmr] at h2
          cases ok with
          | true =>
            have hlt : len - (10 + read_u16_be bytes 8) < len := by omega
            exact ih _ hlt _ _ h2 hl
          | false => exact h2
      · rw [dif_neg hfit]
        exact hfind
    · rw [dif_neg h10]
      exact hfind

theorem finish_push_preserves_local {alloc : Nat → Bool} {now : Nat} {mac : Mac}
    {s : MergeState} {p : PushData} {t : Nat} {src : Mac} {d : Dataset}
    (hfind : data_find s.store t src = some d)
    (hl : d.data_source = .SOURCE_LOCAL) :
    data_find (finish_alfred_push_data alloc now mac s p).1.store t src = some d := by
  unfold finish_alfred_push_data
  by_cases h4 : p.length < 4
  · rw [if_pos h4]
    exact hfind
  · rw [if_neg h4]
    cases hml : merge_loop alloc now mac s p.data (p.length - 4) with
    | mk s1 ok =>
      have h2 := @merge_loop_preserves_local alloc now mac t src d
        (p.length - 4) p.data s hfind hl
      rw [hml] at h2
      cases ok <;> exact h2

theorem fold_finish_preserves_local {alloc : Nat → Bool} {now : Nat} {mac : Mac}
    {t : Nat} {src : Mac} {d : Dataset} :
    ∀ (ps : List PushData) (s : MergeState),
    data_find s.store t src = some d → d.data_source = .SOURCE_LOCAL →
    data_find
      ((ps.foldl (fun ms p => (finish_alfred_push_data alloc now mac ms p).1) s)).store
      t src = some d := by
  intro ps
  induction ps with
  | nil =>
    intro s h _
    exact h
  | cons p ps ih =>
    intro s h hl
    rw [List.foldl_cons]
    exact ih _ (finish_push_preserves_local h hl) hl

theorem finish_transaction_preserves_local {alloc : Nat → Bool} {now : Nat}
    {g : Globals} {changed : List Nat} {k : Nat} {mac : Mac} {id : Nat}
    {t : Nat} {src : Mac} {d : Dataset}
    (hfind : data_find g.data_hash t src = some d)
    (hl : d.data_source = .SOURCE_LOCAL) :
    data_find (finish_alfred_transaction alloc now g changed k mac id).g.data_hash
      t src = some d := by
  unfold finish_alfred_transaction
  cases htx : tx_find g.transaction_hash mac id with
  | none => exact hfind
  | some head =>
    dsimp only
    by_cases hf : transaction_finished head = true
    · rw [if_pos hf]
      exact fold_finish_preserves_local head.packet_list _ hfind hl
    · rw [if_neg hf]
      exact hfind

theorem push_into_tx_preserves_local {alloc : Nat → Bool} {k now : Nat}
    {g : Globals} {mac : Mac} {push : PushData} {t : Nat} {src : Mac} {d : Dataset}
    (hfind : data_find g.data_hash t src = some d)
    (hl : d.data_source = .SOURCE_LOCAL) :
    data_find (push_data_into_transaction alloc k now g mac push).g.data_hash
      t src = some d := by
  unfold push_data_into_transaction
  dsimp only
  cases htx : tx_find
      (tx_update g.transaction_hash mac push.tx_id fun h => { h with last_rx_time := now })
      mac push.tx_id with
  | none => exact hfind
  | some head =>
    dsimp only
    by_cases hdup : (head.packet_list.find? (fun p => p.seqno == push.seqno)).isSome = true
    · rw [if_pos hdup]
      exact hfind
    · rw [if_neg hdup]
      by_cases ha : alloc k = true
      · by_cases hb : alloc (k + 1) = true
        · rw [if_neg (by simp [ha]), if_neg (by simp [hb])]
          exact finish_transaction_preserves_local hfind hl
        · rw [if_neg (by simp [ha]), if_pos (by simp [hb])]
          exact hfind
      · rw [if_pos (by simp [ha])]
        exact hfind

theorem process_push_preserves_local {alloc : Nat → Bool} {k now : Nat}
    {g : Globals} {mac : Mac} {push : PushData} {t : Nat} {src : Mac} {d : Dataset}
    (hfind : data_find g.data_hash t src = some d)
    (hl : d.data_source = .SOURCE_LOCAL) :
    data_find (process_alfred_push_data alloc k now g mac push).g.data_hash
      t src = some d := by
  unfold process_alfred_push_data
  by_cases h4 : push.length < 4
  · rw [if_pos h4]
    exact hfind
  · rw [if_neg h4]
    cases htx : tx_find g.transaction_hash mac push.tx_id with
    | some head => exact push_into_tx_preserves_local hfind hl
    | none =>
      dsimp only
      by_cases hm : g.opmode ≠ Opmode.OPMODE_MASTER
      · rw [if_pos hm]
        exact hfind
      · rw [if_neg hm]
        by_cases ha : (transaction_add alloc k g.transaction_hash mac push.tx_id now).2.1 = true
        · rw [if_pos ha]
          exact push_into_tx_preserves_local hfind hl
        · rw [if_neg ha]
          exact hfind

theorem txend_into_tx_preserves_local {alloc : Nat → Bool} {k now : Nat}
    {g : Globals} {mac : Mac} {st : StatusPacket} {t : Nat} {src : Mac} {d : Dataset}
    (hfind : data_find g.data_hash t src = some d)
    (hl : d.data_source = .SOURCE_LOCAL) :
    data_find (txend_into_transaction alloc k now g mac st).g.data_hash
      t src = some d := by
  unfold txend_into_transaction
  exact finish_transaction_preserves_local hfind hl

theorem process_txend_preserves_local {alloc : Nat → Bool} {k now : Nat}
    {g : Globals} {mac : Mac} {st : StatusPacket} {t : Nat} {src : Mac} {d : Dataset}
    (hfind : data_find g.data_hash t src = some d)
    (hl : d.data_source = .SOURCE_LOCAL) :
    data_find (process_alfred_status_txend alloc k now g mac st).g.data_hash
      t src = some d := by
  unfold process_alfred_status_txend
  by_cases hv : st.version ≠ ALFRED_VERSION
  · rw [if_pos hv]
    exact hfind
  · rw [if_neg hv]
    by_cases h4 : st.length < 4
    · rw [if_pos h4]
      exact hfind
    · rw [if_neg h4]
      cases htx : tx_find g.transaction_hash mac st.tx_id with
      | some head => exact txend_into_tx_preserves_local hfind hl
      | none =>
        dsimp only
        by_cases hm : g.opmode ≠ Opmode.OPMODE_MASTER
        · rw [if_pos hm]
          exact hfind
        · rw [if_neg hm]
          by_cases h0 : st.seqno = 0
          · rw [if_pos h0]
            exact hfind
          · rw [if_neg h0]
            by_cases ha : (transaction_add alloc k g.transaction_hash mac st.tx_id now).2.1 = true
            · rw [if_pos ha]
              exact txend_into_tx_preserves_local hfind hl
            · rw [if_neg ha]
              exact hfind

theorem recv_preserves_local {alloc : Nat → Bool} {k now : Nat} {g : Globals}
    {mac : Mac} {pkt : Packet} {t : Nat} {src : Mac} {d : Dataset}
    (hfind : data_find g.data_hash t src = some d)
    (hl : d.data_source = .SOURCE_LOCAL) :
    data_find (recv_alfred_packet alloc k now g mac pkt).g.data_hash t src = some d := by
  unfold recv_alfred_packet
  by_cases hv : pkt.version ≠ ALFRED_VERSION
  · rw [if_pos hv]
    exact hfind
  · rw [if_neg hv]
    cases pkt with
    | push p => exact process_push_preserves_local hfind hl
    | announce a =>
      dsimp only
      unfold process_alfred_announce_master
      by_cases hav : a.version ≠ ALFRED_VERSION
      · rw [if_pos hav]
        exact hfind
      · rw [if_neg hav]
        cases server_find g.server_hash mac with
        | some sv => exact hfind
        | none =>
          dsimp only
          by_cases ha : alloc k = true
          · rw [if_pos ha]
            exact hfind
          · rw [if_neg ha]
            exact hfind
    | request r => exact hfind
    | txend s => exact process_txend_preserves_local hfind hl

theorem recv_sequence_preserves_local {alloc : Nat → Bool} {t : Nat} {src : Mac}
    {d : Dataset} :
    ∀ (evts : List (Nat × Mac × Packet)) (g : Globals) (k : Nat),
    data_find g.data_hash t src = some d → d.data_source = .SOURCE_LOCAL →
    data_find (recv_sequence alloc (g, k) evts).1.data_hash t src = some d := by
  intro evts
  induction evts with
  | nil =>
    intro g k h _
    exact h
  | cons e rest ih =>
    intro g k h hl
    cases e with
    | mk now rest2 =>
      cases rest2 with
      | mk mac pkt =>
        rw [recv_sequence]
        exact ih _ _ (recv_preserves_local h hl) hl

theorem fold_merge_preserves_notlocal {now : Nat} {mac : Mac} {t : Nat} {src : Mac} :
    ∀ (recs : List DataRecord) (s : MergeState),
    (∀ d, data_find s.store t src = some d → d.data_source ≠ .SOURCE_LOCAL) →
    (∀ d, data_find (merge_fold now mac s recs).store t src = some d →
      d.data_source ≠ .SOURCE_LOCAL) := by
  intro recs
  induction recs with
  | nil =>
    intro s h
    exact h
  | cons r recs ih =>
    intro s h
    rw [merge_fold, List.foldl_cons]
    exact ih _ (merge_record_preserves_notlocal h)

theorem fold_merge_other_key {now : Nat} {mac : Mac} {t : Nat} {src : Mac} :
    ∀ (recs : List DataRecord) (s : MergeState),
    (∀ r, r ∈ recs → ¬ (t = r.dtype ∧ src = r.source)) →
    data_find (merge_fold now mac s recs).store t src = data_find s.store t src := by
  intro recs
  induction recs with
  | nil =>
    intro s _
    rfl
  | cons r recs ih =>
    intro s h
    rw [merge_fold, List.foldl_cons]
    rw [show List.foldl (fun acc r => (merge_record allocAll now mac acc r).1)
      ((merge_record allocAll now mac s r).1) recs
      = merge_fold now mac ((merge_record allocAll now mac s r).1) recs from rfl]
    rw [ih _ (fun r2 hr2 => h r2 (List.mem_cons_of_mem _ hr2))]
    exact merge_record_other_key (h r (List.mem_cons_self _ _))

theorem merge_fold_append {now : Nat} {mac : Mac} {s : MergeState}
    {xs ys : List DataRecord} :
    merge_fold now mac s (xs ++ ys) = merge_fold now mac (merge_fold now mac s xs) ys := by
  rw [merge_fold, merge_fold, merge_fold, List.foldl_append]

theorem merge_fold_cons {now : Nat} {mac : Mac} {s : MergeState}
    {r : DataRecord} {recs : List DataRecord} :
    merge_fold now mac s (r :: recs)
      = merge_fold now mac (merge_record allocAll now mac s r).1 recs := rfl

theorem fold_merge_last {now : Nat} {mac : Mac} {r : DataRecord}
    {l1 l2 : List DataRecord} {s : MergeState}
    (hnl : ∀ d, data_find s.store r.dtype r.source = some d →
      d.data_source ≠ .SOURCE_LOCAL)
    (hl2 : ∀ r2, r2 ∈ l2 → ¬ (r.dtype = r2.dtype ∧ r.source = r2.source)) :
    data_find (merge_fold now mac s (l1 ++ r :: l2)).store r.dtype r.source
      = some (merged_dataset now mac r) := by
  rw [merge_fold_append, merge_fold_cons]
  have h1 : ∀ d, data_find (merge_fold now mac s l1).store r.dtype r.source
      = some d → d.data_source ≠ .SOURCE_LOCAL :=
    fold_merge_preserves_notlocal l1 s hnl
  have h2 := @merge_record_sets now mac (merge_fold now mac s l1) r h1
  rw [fold_merge_other_key l2 _ (fun r2 hr2 => hl2 r2 hr2)]
  exact h2

theorem finish_push_allocAll {now : Nat} {mac : Mac} {s : MergeState} {p : PushData} :
    (finish_alfred_push_data allocAll now mac s p).1
      = merge_fold now mac s (fragment_records p) := by
  unfold finish_alfred_push_data fragment_records
  by_cases h4 : p.length < 4
  · rw [if_pos h4, if_pos h4]
    rfl
  · rw [if_neg h4, if_neg h4]
    rw [merge_loop_allocAll]

theorem fold_finish_allocAll {now : Nat} {mac : Mac} :
    ∀ (ps : List PushData) (s : MergeState),
    ps.foldl (fun ms p => (finish_alfred_push_data allocAll now mac ms p).1) s
      = merge_fold now mac s ((ps.map fragment_records).flatten) := by
  intro ps
  induction ps with
  | nil =>
    intro s
    rfl
  | cons p ps ih =>
    intro s
    rw [List.foldl_cons, List.map_cons, List.flatten_cons, merge_fold_append]
    rw [ih, finish_push_allocAll]

theorem finish_transaction_of_finished {alloc : Nat → Bool} {now : Nat}
    {g : Globals} {changed : List Nat} {k : Nat} {mac : Mac} {id : Nat}
    {head : TransactionHead}
    (htx : tx_find g.transaction_hash mac id = some head)
    (hfin : transaction_finished head = true) :
    finish_alfred_transaction alloc now g changed k mac id =
      ⟨{ g with
         data_hash := (head.packet_list.foldl
           (fun ms p => (finish_alfred_push_data alloc now mac ms p).1)
           ⟨g.data_hash, changed, k⟩).store
         transaction_hash := transaction_clean g.transaction_hash mac id },
       (head.packet_list.foldl
           (fun ms p => (finish_alfred_push_data alloc now mac ms p).1)
           ⟨g.data_hash, changed, k⟩).changed,
       (head.packet_list.foldl
           (fun ms p => (finish_alfred_push_data alloc now mac ms p).1)
           ⟨g.data_hash, changed, k⟩).k, 1⟩ := by
  unfold finish_alfred_transaction
  rw [htx]
  dsimp only
  rw [if_pos hfin]

theorem finish_transaction_of_not_finished {alloc : Nat → Bool} {now : Nat}
    {g : Globals} {changed : List Nat} {k : Nat} {mac : Mac} {id : Nat}
    {head : TransactionHead}
    (htx : tx_find g.transaction_hash mac id = some head)
    (hfin : transaction_finished head = false) :
    finish_alfred_transaction alloc now g changed k mac id = ⟨g, changed, k, 0⟩ := by
  unfold finish_alfred_transaction
  rw [htx]
  dsimp only
  rw [if_neg (by simp [hfin])]

/-! ### Transaction table effect lemmas -/

theorem tx_find_append_other {l : List TransactionHead} {m : Mac} {i : Nat}
    {x : TransactionHead} (hx : ¬ (x.server_addr = m ∧ x.id = i)) :
    tx_find (l ++ [x]) m i = tx_find l m i := by
  cases hf : tx_find l m i with
  | some h => exact tx_find_append x hf
  | none => rw [tx_find_append_none x hf, if_neg hx]

theorem tx_find_update_isSome {l : List TransactionHead} {m : Mac} {i : Nat}
    {f : TransactionHead → TransactionHead}
    (hf : ∀ h, h.server_addr = m → h.id = i →
      (f h).server_addr = m ∧ (f h).id = i) :
    ∀ m' i', (tx_find (tx_update l m i f) m' i').isSome
      = (tx_find l m' i').isSome := by
  intro m' i'
  by_cases hne : m' = m ∧ i' = i
  · obtain ⟨h1, h2⟩ := hne
    subst h1; subst h2
    cases hfind : tx_find l m' i' with
    | some h =>
      rw [tx_find_update_self hfind (hf h (tx_find_some_key hfind).1
        (tx_find_some_key hfind).2)]
      rfl
    | none =>
      have : tx_find (tx_update l m' i' f) m' i' = none := by
        induction l with
        | nil => rfl
        | cons a l ih =>
          rw [tx_find] at hfind
          rw [tx_update]
          split
          next hk => rw [if_pos hk] at hfind; exact absurd hfind (by simp)
          next hk =>
            rw [if_neg hk] at hfind
            rw [tx_find, if_neg hk]
            exact ih hfind
      rw [this]
  · rw [tx_find_update_other hf hne]

theorem push_into_tx_isSome_mono {alloc : Nat → Bool} {k now : Nat}
    {g : Globals} {mac : Mac} {push : PushData} {m : Mac} {i : Nat}
    (h : (tx_find (push_data_into_transaction alloc k now g mac push).g.transaction_hash
      m i).isSome = true) :
    (tx_find g.transaction_hash m i).isSome = true := by
  have hkeys : ∀ h2 : TransactionHead, h2.server_addr = mac → h2.id = push.tx_id →
      (({ h2 with last_rx_time := now } : TransactionHead).server_addr = mac
        ∧ ({ h2 with last_rx_time := now } : TransactionHead).id = push.tx_id) :=
    fun h2 ha hb => ⟨ha, hb⟩
  unfold push_data_into_transaction at h
  dsimp only at h
  rw [← tx_find_update_isSome hkeys m i]
  revert h
  cases htx : tx_find
      (tx_update g.transaction_hash mac push.tx_id fun h => { h with last_rx_time := now })
      mac push.tx_id with
  | none =>
    intro h
    exact h
  | some head =>
    dsimp only
    by_cases hdup : (head.packet_list.find? (fun p => p.seqno == push.seqno)).isSome = true
    · rw [if_pos hdup]
      intro h
      exact h
    · rw [if_neg hdup]
      by_cases ha : alloc k = true
      · by_cases hb : alloc (k + 1) = true
        · rw [if_neg (by simp [ha]), if_neg (by simp [hb])]
          intro h
          have hkeys2 : ∀ h2 : TransactionHead, h2.server_addr = mac → h2.id = push.tx_id →
              ((({ h2 with
                  packet_list := h2.packet_list ++
                    [{ push with data := push.data.take (push.length - 4) }]
                  num_packet := h2.num_packet + 1 } : TransactionHead)).server_addr = mac
                ∧ (({ h2 with
                  packet_list := h2.packet_list ++
                    [{ push with data := push.data.take (push.length - 4) }]
                  num_packet := h2.num_packet + 1 } : TransactionHead)).id = push.tx_id) :=
            fun h2 ha2 hb2 => ⟨ha2, hb2⟩
          rw [← tx_find_update_isSome hkeys2 m i]
          set g2tx := tx_update
            (tx_update g.transaction_hash mac push.tx_id fun h => { h with last_rx_time := now })
            mac push.tx_id
            (fun h => { h with
              packet_list := h.packet_list ++
                [{ push with data := push.data.take (push.length - 4) }]
              num_packet := h.num_packet + 1 }) with hg2
          have hfin := h
          revert hfin
          unfold finish_alfred_transaction
          cases htx2 : tx_find g2tx mac push.tx_id with
          | none =>
            intro hfin
            exact hfin
          | some head2 =>
            dsimp only
            by_cases hf2 : transaction_finished head2 = true
            · rw [if_pos hf2]
              intro hfin
              exact tx_find_remove_isSome hfin
            · rw [if_neg hf2]
              intro hfin
              exact hfin
        · rw [if_neg (by simp [ha]), if_pos (by simp [hb])]
          intro h
          exact h
      · rw [if_pos (by simp [ha])]
        intro h
        exact h

theorem finish_tx_isSome_mono {alloc : Nat → Bool} {now : Nat} {g : Globals}
    {changed : List Nat} {k : Nat} {mac : Mac} {id : Nat} {m : Mac} {i : Nat}
    (h : (tx_find (finish_alfred_transaction alloc now g changed k mac id).g.transaction_hash
      m i).isSome = true) :
    (tx_find g.transaction_hash m i).isSome = true := by
  revert h
  unfold finish_alfred_transaction
  cases htx : tx_find g.transaction_hash mac id with
  | none =>
    intro h
    exact h
  | some head =>
    dsimp only
    by_cases hf : transaction_finished head = true
    · rw [if_pos hf]
      intro h
      exact tx_find_remove_isSome h
    · rw [if_neg hf]
      intro h
      exact h

theorem txend_into_tx_isSome_mono {alloc : Nat → Bool} {k now : Nat} {g : Globals}
    {mac : Mac} {st : StatusPacket} {m : Mac} {i : Nat}
    (h : (tx_find (txend_into_transaction alloc k now g mac st).g.transaction_hash
      m i).isSome = true) :
    (tx_find g.transaction_hash m i).isSome = true := by
  unfold txend_into_transaction at h
  dsimp only at h
  have h2 := finish_tx_isSome_mono h
  have h3 := @tx_find_update_isSome g.transaction_hash mac st.tx_id
    (fun h => { h with last_rx_time := now, txend_packets := st.seqno })
    (fun h3 ha hb => ⟨ha, hb⟩) m i
  rw [h3] at h2
  exact h2

theorem announce_tx_unchanged {alloc : Nat → Bool} {k now : Nat} {g : Globals}
    {mac : Mac} {address : Nat} {a : AnnouncePacket} :
    (process_alfred_announce_master alloc k now g mac address a).g.transaction_hash
      = g.transaction_hash := by
  unfold process_alfred_announce_master
  by_cases hv : a.version ≠ ALFRED_VERSION
  · rw [if_pos hv]
  · rw [if_neg hv]
    cases server_find g.server_hash mac with
    | some sv => rfl
    | none =>
      dsimp only
      by_cases ha : alloc k = true
      · rw [if_pos ha]
      · rw [if_neg ha]

theorem push_unknown_master_eq {k now : Nat} {g : Globals} {mac : Mac}
    {push : PushData}
    (h4 : ¬ push.length < 4)
    (htx : tx_find g.transaction_hash mac push.tx_id = none)
    (hm : g.opmode = .OPMODE_MASTER) :
    process_alfred_push_data allocAll k now g mac push =
      ⟨{ g with
         transaction_hash :=
           tx_update
             (tx_update
               (g.transaction_hash ++ [⟨mac, push.tx_id, 0, 0, 0, -1, now, []⟩])
               mac push.tx_id (fun h => { h with last_rx_time := now }))
             mac push.tx_id
             (fun h =>
               { h with
                 packet_list := h.packet_list ++
                   [{ push with data := push.data.take (push.length - 4) }]
                 num_packet := h.num_packet + 1 }) },
       [], k + 3, 0⟩ := by
  have hfind1 : tx_find (g.transaction_hash ++
      [(⟨mac, push.tx_id, 0, 0, 0, -1, now, []⟩ : TransactionHead)]) mac push.tx_id
      = some ⟨mac, push.tx_id, 0, 0, 0, -1, now, []⟩ := by
    rw [tx_find_append_none _ htx]
    exact if_pos ⟨rfl, rfl⟩
  have hfind2 := @tx_find_update_self
    (g.transaction_hash ++ [⟨mac, push.tx_id, 0, 0, 0, -1, now, []⟩])
    mac push.tx_id ⟨mac, push.tx_id, 0, 0, 0, -1, now, []⟩
    (fun h => { h with last_rx_time := now }) hfind1 ⟨rfl, rfl⟩
  have hfind3 := @tx_find_update_self _ mac push.tx_id _
    (fun h =>
      { h with
        packet_list := h.packet_list ++
          [{ push with data := push.data.take (push.length - 4) }]
        num_packet := h.num_packet + 1 })
    hfind2 ⟨rfl, rfl⟩
  unfold process_alfred_push_data
  rw [if_neg h4, htx]
  dsimp only
  rw [if_neg (by simp [hm])]
  rw [show transaction_add allocAll k g.transaction_hash mac push.tx_id now
    = (g.transaction_hash ++ [⟨mac, push.tx_id, 0, 0, 0, -1, now, []⟩], true, k + 1)
    from rfl]
  dsimp only
  rw [if_pos rfl]
  unfold push_data_into_transaction
  dsimp only
  rw [hfind2]
  dsimp only
  rw [if_neg (by simp), if_neg (by simp [allocAll]), if_neg (by simp [allocAll])]
  have hfin : ∀ (h : TransactionHead), h.txend_packets = 0 → h.num_packet = 1 →
      transaction_finished h = false := by
    intro h h1 h2
    simp [transaction_finished, h1, h2]
  rw [finish_transaction_of_not_finished hfind3 (hfin _ rfl rfl)]

theorem txend_unknown_master_eq {k now : Nat} {g : Globals} {mac : Mac}
    {st : StatusPacket}
    (hv : st.version = ALFRED_VERSION) (h4 : ¬ st.length < 4)
    (htx : tx_find g.transaction_hash mac st.tx_id = none)
    (hm : g.opmode = .OPMODE_MASTER) (h0 : st.seqno ≠ 0) :
    process_alfred_status_txend allocAll k now g mac st =
      ⟨{ g with
         transaction_hash :=
           tx_update
             (g.transaction_hash ++ [⟨mac, st.tx_id, 0, 0, 0, -1, now, []⟩])
             mac st.tx_id
             (fun h => { h with last_rx_time := now, txend_packets := st.seqno }) },
       [], k + 1, 0⟩ := by
  have hfind1 : tx_find (g.transaction_hash ++
      [(⟨mac, st.tx_id, 0, 0, 0, -1, now, []⟩ : TransactionHead)]) mac st.tx_id
      = some ⟨mac, st.tx_id, 0, 0, 0, -1, now, []⟩ := by
    rw [tx_find_append_none _ htx]
    exact if_pos ⟨rfl, rfl⟩
  have hfind2 := @tx_find_update_self
    (g.transaction_hash ++ [⟨mac, st.tx_id, 0, 0, 0, -1, now, []⟩])
    mac st.tx_id ⟨mac, st.tx_id, 0, 0, 0, -1, now, []⟩
    (fun h => { h with last_rx_time := now, txend_packets := st.seqno })
    hfind1 ⟨rfl, rfl⟩
  have hfin : ∀ (h : TransactionHead), h.txend_packets = st.seqno →
      h.num_packet = 0 → transaction_finished h = false := by
    intro h h1 h2
    simp [transaction_finished, h1, h2]
    omega
  unfold process_alfred_status_txend
  rw [if_neg (by simp [hv]), if_neg h4, htx]
  dsimp only
  rw [if_neg (by simp [hm]), if_neg h0]
  rw [show transaction_add allocAll k g.transaction_hash mac st.tx_id now
    = (g.transaction_hash ++ [⟨mac, st.tx_id, 0, 0, 0, -1, now, []⟩], true, k + 1)
    from rfl]
  dsimp only
  rw [if_pos rfl]
  unfold txend_into_transaction
  dsimp only
  rw [finish_transaction_of_not_finished hfind2 (hfin _ rfl rfl)]

theorem push_known_dup_eq {alloc : Nat → Bool} {k now : Nat} {g : Globals}
    {mac : Mac} {push : PushData} {head : TransactionHead}
    (h4 : ¬ push.length < 4)
    (htx : tx_find g.transaction_hash mac push.tx_id = some head)
    (hdup : (head.packet_list.find? (fun p => p.seqno == push.seqno)).isSome = true) :
    process_alfred_push_data alloc k now g mac push =
      ⟨{ g with
         transaction_hash := tx_update g.transaction_hash mac push.tx_id
           (fun h => { h with last_rx_time := now }) },
       [], k, 0⟩ := by
  have hkey := tx_find_some_key htx
  have hfind2 := @tx_find_update_self g.transaction_hash mac push.tx_id head
    (fun h => { h with last_rx_time := now }) htx ⟨hkey.1, hkey.2⟩
  unfold process_alfred_push_data
  rw [if_neg h4, htx]
  dsimp only
  unfold push_data_into_transaction
  dsimp only
  rw [hfind2]
  dsimp only
  rw [if_pos hdup]

theorem push_known_frag_fail_eq {alloc : Nat → Bool} {k now : Nat} {g : Globals}
    {mac : Mac} {push : PushData} {head : TransactionHead}
    (h4 : ¬ push.length < 4)
    (htx : tx_find g.transaction_hash mac push.tx_id = some head)
    (hdup : (head.packet_list.find? (fun p => p.seqno == push.seqno)).isSome = false)
    (ha : alloc k = false) :
    process_alfred_push_data alloc k now g mac push =
      ⟨{ g with
         transaction_hash := tx_update g.transaction_hash mac push.tx_id
           (fun h => { h with last_rx_time := now }) },
       [], k + 1, -1⟩ := by
  have hkey := tx_find_some_key htx
  have hfind2 := @tx_find_update_self g.transaction_hash mac push.tx_id head
    (fun h => { h with last_rx_time := now }) htx ⟨hkey.1, hkey.2⟩
  unfold process_alfred_push_data
  rw [if_neg h4, htx]
  dsimp only
  unfold push_data_into_transaction
  dsimp only
  rw [hfind2]
  dsimp only
  rw [if_neg (by simp [hdup]), if_pos (by simp [ha])]

theorem push_unknown_master_frag_fail_eq {alloc : Nat → Bool} {k now : Nat}
    {g : Globals} {mac : Mac} {push : PushData}
    (h4 : ¬ push.length < 4)
    (htx : tx_find g.transaction_hash mac push.tx_id = none)
    (hm : g.opmode = .OPMODE_MASTER)
    (ha : alloc k = true) (hb : alloc (k + 1) = false) :
    process_alfred_push_data alloc k now g mac push =
      ⟨{ g with
         transaction_hash :=
           tx_update
             (g.transaction_hash ++ [⟨mac, push.tx_id, 0, 0, 0, -1, now, []⟩])
             mac push.tx_id (fun h => { h with last_rx_time := now }) },
       [], k + 2, -1⟩ := by
  have hfind1 : tx_find (g.transaction_hash ++
      [(⟨mac, push.tx_id, 0, 0, 0, -1, now, []⟩ : TransactionHead)]) mac push.tx_id
      = some ⟨mac, push.tx_id, 0, 0, 0, -1, now, []⟩ := by
    rw [tx_find_append_none _ htx]
    exact if_pos ⟨rfl, rfl⟩
  have hfind2 := @tx_find_update_self
    (g.transaction_hash ++ [⟨mac, push.tx_id, 0, 0, 0, -1, now, []⟩])
    mac push.tx_id ⟨mac, push.tx_id, 0, 0, 0, -1, now, []⟩
    (fun h => { h with last_rx_time := now }) hfind1 ⟨rfl, rfl⟩
  unfold process_alfred_push_data
  rw [if_neg h4, htx]
  dsimp only
  rw [if_neg (by simp [hm])]
  rw [show transaction_add alloc k g.transaction_hash mac push.tx_id now
    = (g.transaction_hash ++ [⟨mac, push.tx_id, 0, 0, 0, -1, now, []⟩], true, k + 1)
    from by unfold transaction_add; rw [if_pos ha]]
  dsimp only
  rw [if_pos rfl]
  unfold push_data_into_transaction
  dsimp only
  rw [hfind2]
  dsimp only
  rw [if_neg (by simp), if_pos (by simp [hb])]

theorem merge_record_buf_fail_eq {alloc : Nat → Bool} {now : Nat} {mac : Mac}
    {s : MergeState} {r : DataRecord} {ds0 : Dataset}
    (hfind : data_find s.store r.dtype r.source = some ds0)
    (hl : ds0.data_source ≠ .SOURCE_LOCAL)
    (ha : alloc s.k = false) :
    merge_record alloc now mac s r =
      (⟨data_update s.store r.dtype r.source (fun _ =>
          { ds0 with
            last_seen := now
            buf := none
            length := if ds0.buf.isSome then 0 else ds0.length }),
        if ds0.length ≠ r.length ∨ ds0.buf.getD [] ≠ r.payload
          then s.changed ++ [r.dtype] else s.changed,
        s.k + 1⟩, false) := by
  unfold merge_record
  rw [hfind]
  dsimp only
  rw [if_neg hl, if_neg (by simp [ha])]

/-! ### Push scheduler lemmas -/

theorem push_flush_mtu {maxPayload : Nat} {tx_id : Nat} {st : PushState}
    (h8 : 8 ≤ maxPayload) (h : push_mtu_inv maxPayload st) :
    push_mtu_inv maxPayload (push_flush tx_id st) := by
  obtain ⟨h1, h2, h3, h4, h5⟩ := h
  refine ⟨rfl, Nat.zero_le _, ?_, ?_, ?_⟩
  · intro p hp
    rw [push_flush] at hp
    dsimp only at hp
    rw [List.mem_append] at hp
    cases hp with
    | inl hp => exact h3 p hp
    | inr hp =>
      rw [List.mem_singleton] at hp
      subst hp
      show 8 + (st.buffer.map record_wire_size).sum ≤ maxPayload
      omega
  · intro tid2 sq rs hp r hr
    rw [push_flush] at hp
    dsimp only at hp
    rw [List.mem_append] at hp
    cases hp with
    | inl hp => exact h4 tid2 sq rs hp r hr
    | inr hp =>
      rw [List.mem_singleton] at hp
      injection hp with e1 e2 e3
      subst e3
      exact h5 r hr
  · intro r hr
    rw [push_flush] at hr
    dsimp only at hr
    exact absurd hr (List.not_mem_nil r)

theorem push_flush_count {tx_id : Nat} {st : PushState}
    (h : push_count_inv st) : push_count_inv (push_flush tx_id st) := by
  obtain ⟨h1, h2⟩ := h
  constructor
  · rw [push_flush]
    dsimp only
    rw [List.filter_append, List.length_append]
    simp [OutPacket.is_push_frag, h1]
  · intro p hp
    rw [push_flush] at hp
    dsimp only at hp
    rw [List.mem_append] at hp
    cases hp with
    | inl hp => exact h2 p hp
    | inr hp =>
      rw [List.mem_singleton] at hp
      subst hp
      rfl

theorem push_append_mtu {maxPayload : Nat} {st : PushState} {ds : Dataset}
    (hfit : ¬ st.total_length + ds.length + 10 > maxPayload - 8)
    (h : push_mtu_inv maxPayload st) :
    push_mtu_inv maxPayload
      { st with
        buffer := st.buffer ++
          [{ source := ds.source
             dtype := ds.dtype
             version := ds.version
             length := ds.length
             payload := (ds.buf.getD []).take ds.length }]
        total_length := st.total_length + ds.length + 10 } := by
  obtain ⟨h1, h2, h3, h4, h5⟩ := h
  refine ⟨?_, ?_, h3, h4, ?_⟩
  swap
  · show st.total_length + ds.length + 10 ≤ maxPayload - 8
    omega
  · rw [List.map_append, List.sum_append]
    show (st.buffer.map record_wire_size).sum + (10 + ds.length + 0)
      = st.total_length + ds.length + 10
    omega
  · intro r hr
    rw [List.mem_append] at hr
    cases hr with
    | inl hr => exact h5 r hr
    | inr hr =>
      rw [List.mem_singleton] at hr
      subst hr
      show 10 + ds.length ≤ maxPayload - 8
      omega

theorem push_step_mtu {maxPayload : Nat} {lvl : DataSource} {filt : Int}
    {tid : Nat} {st : PushState} {ds : Dataset} (h8 : 8 ≤ maxPayload)
    (h : push_mtu_inv maxPayload st) :
    push_mtu_inv maxPayload (push_data_step maxPayload lvl filt tid st ds) := by
  unfold push_data_step
  by_cases hsrc : ds.data_source.val > lvl.val
  · rw [if_pos hsrc]
    exact h
  · rw [if_neg hsrc]
    by_cases hfilt : 0 ≤ filt ∧ Int.ofNat ds.dtype ≠ filt
    · rw [if_pos hfilt]
      exact h
    · rw [if_neg hfilt]
      by_cases hbig : st.total_length + ds.length + 10 > maxPayload - 8
      · rw [if_pos hbig]
        by_cases h0 : st.total_length = 0
        · rw [if_pos h0]
          dsimp only
          rw [if_pos hbig]
          exact h
        · rw [if_neg h0]
          dsimp only
          by_cases hbig2 : (push_flush tid st).total_length + ds.length + 10
              > maxPayload - 8
          · rw [if_pos hbig2]
            exact push_flush_mtu h8 h
          · rw [if_neg hbig2]
            exact push_append_mtu hbig2 (push_flush_mtu h8 h)
      · rw [if_neg hbig]
        dsimp only
        rw [if_neg hbig]
        exact push_append_mtu hbig h

theorem push_step_count {maxPayload : Nat} {lvl : DataSource} {filt : Int}
    {tid : Nat} {st : PushState} {ds : Dataset}
    (h : push_count_inv st) :
    push_count_inv (push_data_step maxPayload lvl filt tid st ds) := by
  unfold push_data_step
  by_cases hsrc : ds.data_source.val > lvl.val
  · rw [if_pos hsrc]
    exact h
  · rw [if_neg hsrc]
    by_cases hfilt : 0 ≤ filt ∧ Int.ofNat ds.dtype ≠ filt
    · rw [if_pos hfilt]
      exact h
    · rw [if_neg hfilt]
      by_cases hbig : st.total_length + ds.length + 10 > maxPayload - 8
      · rw [if_pos hbig]
        by_cases h0 : st.total_length = 0
        · rw [if_pos h0]
          dsimp only
          rw [if_pos hbig]
          exact h
        · rw [if_neg h0]
          dsimp only
          by_cases hbig2 : (push_flush tid st).total_length + ds.length + 10
              > maxPayload - 8
          · rw [if_pos hbig2]
            exact push_flush_count h
          · rw [if_neg hbig2]
            exact ⟨(push_flush_count h).1, (push_flush_count h).2⟩
      · rw [if_neg hbig]
        dsimp only
        rw [if_neg hbig]
        exact ⟨h.1, h.2⟩

theorem push_fold_mtu {maxPayload : Nat} {lvl : DataSource} {filt : Int}
    {tid : Nat} (h8 : 8 ≤ maxPayload) :
    ∀ (store : List Dataset) (st : PushState), push_mtu_inv maxPayload st →
    push_mtu_inv maxPayload
      (store.foldl (push_data_step maxPayload lvl filt tid) st) := by
  intro store
  induction store with
  | nil =>
    intro st h
    exact h
  | cons ds store ih =>
    intro st h
    rw [List.foldl_cons]
    exact ih _ (push_step_mtu h8 h)

theorem push_fold_count {maxPayload : Nat} {lvl : DataSource} {filt : Int}
    {tid : Nat} :
    ∀ (store : List Dataset) (st : PushState), push_count_inv st →
    push_count_inv (store.foldl (push_data_step maxPayload lvl filt tid) st) := by
  intro store
  induction store with
  | nil =>
    intro st h
    exact h
  | cons ds store ih =>
    intro st h
    rw [List.foldl_cons]
    exact ih _ (push_step_count h)

/-! ### Claim theorems -/

/-- C1: for every dataset entry whose provenance is LOCAL, no inbound
network packet (over any sequence of inbound packets, any allocation
outcomes) modifies the entry: the stored Dataset value, hence its payload
bytes, length, version, provenance and last_seen, is unchanged; and the
merge of a PUSH_DATA record whose key hits a LOCAL entry returns the merge
state untouched, so no changed signal is emitted for that record. -/
theorem C1_local_never_overwritten :
    (∀ (alloc : Nat → Bool) (k : Nat) (g : Globals)
      (evts : List (Nat × Mac × Packet)) (t : Nat) (src : Mac) (d : Dataset),
      data_find g.data_hash t src = some d → d.data_source = .SOURCE_LOCAL →
      data_find (recv_sequence alloc (g, k) evts).1.data_hash t src = some d)
    ∧ (∀ (alloc : Nat → Bool) (now : Nat) (mac : Mac) (s : MergeState)
      (r : DataRecord) (d : Dataset),
      data_find s.store r.dtype r.source = some d →
      d.data_source = .SOURCE_LOCAL →
      merge_record alloc now mac s r = (s, true)) := by
  constructor
  · intro alloc k g evts t src d h hl
    exact recv_sequence_preserves_local evts g k h hl
  · intro alloc now mac s r d h hl
    exact merge_record_local_skip h hl

/-- C1 witness: a LOCAL entry for key (9, 01:02:03:04:05:06) survives an
inbound PUSH_DATA carrying a record with the same key, unchanged. -/
theorem C1_witness :
    data_find (recv_sequence allocAll
      ({ data_hash := [⟨[1,2,3,4,5,6], 9, 0, 3, some [1,2,3],
           .SOURCE_LOCAL, 50⟩],
         transaction_hash := [], server_hash := [],
         opmode := .OPMODE_MASTER }, 0)
      [(100, [9,9,9,9,9,9],
        Packet.push ⟨0, 15, 5, 0, [1,2,3,4,5,6, 9, 2, 0,1, 7]⟩)]).1.data_hash
      9 [1,2,3,4,5,6]
      = some ⟨[1,2,3,4,5,6], 9, 0, 3, some [1,2,3], .SOURCE_LOCAL, 50⟩ :=
  C1_local_never_overwritten.1 allocAll 0 _ _ 9 [1,2,3,4,5,6] _ (by decide) (by decide)

/-- C8: a PUSH_DATA fragment whose seqno matches a fragment already stored
in the matching transaction leaves the fragment list and num_packet
unchanged; the dataset store is untouched, no changed signal is emitted and
the handler returns 0 (silent discard). -/
theorem C8_duplicate_fragment_dropped (alloc : Nat → Bool) (k now : Nat)
    (g : Globals) (mac : Mac) (push : PushData) (head : TransactionHead)
    (p : PushData)
    (h4 : ¬ push.length < 4)
    (htx : tx_find g.transaction_hash mac push.tx_id = some head)
    (hp : p ∈ head.packet_list) (hs : p.seqno = push.seqno) :
    ∃ head2,
      tx_find (process_alfred_push_data alloc k now g mac push).g.transaction_hash
          mac push.tx_id = some head2
        ∧ head2.packet_list = head.packet_list
        ∧ head2.num_packet = head.num_packet
        ∧ (process_alfred_push_data alloc k now g mac push).g.data_hash = g.data_hash
        ∧ (process_alfred_push_data alloc k now g mac push).changed = []
        ∧ (process_alfred_push_data alloc k now g mac push).ret = 0 := by
  have hdup : (head.packet_list.find? (fun q => q.seqno == push.seqno)).isSome = true := by
    rw [List.find?_isSome]
    exact ⟨p, hp, by simp [hs]⟩
  have hkey := tx_find_some_key htx
  rw [push_known_dup_eq h4 htx hdup]
  exact ⟨{ head with last_rx_time := now },
    @tx_find_update_self g.transaction_hash mac push.tx_id head
      (fun h => { h with last_rx_time := now }) htx ⟨hkey.1, hkey.2⟩,
    rfl, rfl, rfl, rfl, rfl⟩

/-- C8 witness: a duplicate of the stored seqno-0 fragment is discarded. -/
theorem C8_witness :
    ∃ head2,
      tx_find (process_alfred_push_data allocAll 0 200
          { data_hash := [],
            transaction_hash := [⟨[9,9,9,9,9,9], 5, 0, 0, 1, -1, 0,
              [⟨0, 15, 5, 0, [1,2,3,4,5,6, 9, 2, 0,1, 7]⟩]⟩],
            server_hash := [], opmode := .OPMODE_MASTER }
          [9,9,9,9,9,9] ⟨0, 15, 5, 0, [1,2,3,4,5,6, 9, 2, 0,1, 7]⟩).g.transaction_hash
          [9,9,9,9,9,9] 5 = some head2
        ∧ head2.packet_list = [⟨0, 15, 5, 0, [1,2,3,4,5,6, 9, 2, 0,1, 7]⟩]
        ∧ head2.num_packet = 1
        ∧ (process_alfred_push_data allocAll 0 200
            { data_hash := [],
              transaction_hash := [⟨[9,9,9,9,9,9], 5, 0, 0, 1, -1, 0,
                [⟨0, 15, 5, 0, [1,2,3,4,5,6, 9, 2, 0,1, 7]⟩]⟩],
              server_hash := [], opmode := .OPMODE_MASTER }
            [9,9,9,9,9,9] ⟨0, 15, 5, 0, [1,2,3,4,5,6, 9, 2, 0,1, 7]⟩).g.data_hash = []
        ∧ (process_alfred_push_data allocAll 0 200
            { data_hash := [],
              transaction_hash := [⟨[9,9,9,9,9,9], 5, 0, 0, 1, -1, 0,
                [⟨0, 15, 5, 0, [1,2,3,4,5,6, 9, 2, 0,1, 7]⟩]⟩],
              server_hash := [], opmode := .OPMODE_MASTER }
            [9,9,9,9,9,9] ⟨0, 15, 5, 0, [1,2,3,4,5,6, 9, 2, 0,1, 7]⟩).changed = []
        ∧ (process_alfred_push_data allocAll 0 200
            { data_hash := [],
              transaction_hash := [⟨[9,9,9,9,9,9], 5, 0, 0, 1, -1, 0,
                [⟨0, 15, 5, 0, [1,2,3,4,5,6, 9, 2, 0,1, 7]⟩]⟩],
              server_hash := [], opmode := .OPMODE_MASTER }
            [9,9,9,9,9,9] ⟨0, 15, 5, 0, [1,2,3,4,5,6, 9, 2, 0,1, 7]⟩).ret = 0 :=
  C8_duplicate_fragment_dropped allocAll 0 200 _ [9,9,9,9,9,9]
    ⟨0, 15, 5, 0, [1,2,3,4,5,6, 9, 2, 0,1, 7]⟩
    ⟨[9,9,9,9,9,9], 5, 0, 0, 1, -1, 0, [⟨0, 15, 5, 0, [1,2,3,4,5,6, 9, 2, 0,1, 7]⟩]⟩
    ⟨0, 15, 5, 0, [1,2,3,4,5,6, 9, 2, 0,1, 7]⟩
    (by decide) (by decide) (by decide) rfl

/-- C9: evaluation of send_alfred_packet at a failing sendto. The libc
convention makes sendto return -1 on every failure with the reason only in
errno, which the source never reads; since EPERM = 1, the comparison
ret == -EPERM is ret == -1 and fires for every failure. At a failure whose
errno is ENETUNREACH (101) both sockets are closed and marked unusable,
contradicting the claim that only the permission-denied class tears the
interface down; a result other than -1 never closes them. -/
theorem C9_teardown_on_any_failure :
    (∀ e : Nat, send_alfred_packet ⟨3, 4⟩ (-1) e = (⟨-1, -1⟩, -1))
    ∧ (∀ (iface : NetIface) (ret : Int) (e : Nat),
        0 ≤ iface.netsock → ret ≠ -1 →
        (send_alfred_packet iface ret e).1 = iface)
    ∧ EPERM = 1 := by
  refine ⟨fun e => rfl, ?_, rfl⟩
  intro iface ret e h0 hret
  unfold send_alfred_packet
  rw [if_neg (by omega), if_neg (by
    show ¬ ret = -EPERM
    rw [show -EPERM = (-1 : Int) from rfl]
    exact hret)]

/-- C9 witness: an open interface, sendto failing with errno ENETUNREACH
(libc return -1): both sockets are closed; and with return 0 they stay. -/
theorem C9_witness :
    send_alfred_packet ⟨3, 4⟩ (-1) 101 = (⟨-1, -1⟩, -1)
    ∧ (send_alfred_packet ⟨3, 4⟩ 0 101).1 = ⟨3, 4⟩ :=
  ⟨C9_teardown_on_any_failure.1 101,
   C9_teardown_on_any_failure.2.1 ⟨3, 4⟩ 0 101 (by decide) (by decide)⟩

/-- C10: a well-formed REQUEST (matching version, body of at least 3 bytes)
always invokes push_data toward the requester with max provenance level
SOURCE_SYNCED, the requested type as filter and the request's tx id,
whatever the globals (in particular the operating mode, which the handler
never consults) hold. -/
theorem C10_request_always_answered (g : Globals) (req : RequestPacket)
    (hv : req.version = ALFRED_VERSION) (hlen : ¬ req.length < 3) :
    process_alfred_request g req =
      (some ⟨DataSource.SOURCE_SYNCED, Int.ofNat req.requested_type, req.tx_id⟩, 0)
    ∧ ∀ g2 : Globals, process_alfred_request g req = process_alfred_request g2 req := by
  constructor
  · unfold process_alfred_request
    rw [if_neg (by simp [hv]), if_neg hlen]
  · intro g2
    rfl

/-- C10 witness: a slave answers REQUEST{type 42, tx 7} with a SYNCED-level
push of type 42 and tx id 7. -/
theorem C10_witness :
    process_alfred_request ⟨[], [], [], .OPMODE_SLAVE⟩ ⟨0, 3, 42, 7⟩
      = (some ⟨DataSource.SOURCE_SYNCED, 42, 7⟩, 0) :=
  (C10_request_always_answered ⟨[], [], [], .OPMODE_SLAVE⟩ ⟨0, 3, 42, 7⟩
    rfl (by decide)).1

/-- C3 counterexample: a known transaction whose recorded expected final
seqno is 0 and which holds no fragments IS completed by an inbound
STATUS_TXEND with seqno 0 — the record is removed from the table and the
handler returns success — refuting the claim that a transaction whose
recorded expected final seqno is 0 is never completed. -/
theorem C3_counterexample :
    (process_alfred_status_txend allocAll 0 100
        { data_hash := [],
          transaction_hash := [⟨[1,2,3,4,5,6], 7, 0, 0, 0, -1, 0, []⟩],
          server_hash := [], opmode := .OPMODE_MASTER }
        [1,2,3,4,5,6] ⟨0, 4, 7, 0⟩).g.transaction_hash = []
    ∧ (process_alfred_status_txend allocAll 0 100
        { data_hash := [],
          transaction_hash := [⟨[1,2,3,4,5,6], 7, 0, 0, 0, -1, 0, []⟩],
          server_hash := [], opmode := .OPMODE_MASTER }
        [1,2,3,4,5,6] ⟨0, 4, 7, 0⟩).ret = 0 := by
  constructor
  · decide
  · decide

/-- C3 amended: finish_alfred_transaction completes a known transaction
(returns 1 and removes the record after delivering its fragments) exactly
when the received fragment count equals the recorded expected final seqno,
the test being plain equality; when the counts differ nothing changes. In
particular a known transaction whose recorded expected seqno is 0 completes
exactly when it holds no fragments — so on_txend with seqno 0 completes an
empty known transaction, while a push, which raises the count to at least
one before testing, never completes a zero-expected transaction. -/
theorem C3_completion_is_count_equality (alloc : Nat → Bool) (now : Nat)
    (g : Globals) (changed : List Nat) (k : Nat) (mac : Mac) (id : Nat)
    (head : TransactionHead)
    (htx : tx_find g.transaction_hash mac id = some head) :
    ((finish_alfred_transaction alloc now g changed k mac id).ret = 1
      ↔ head.txend_packets = head.num_packet)
    ∧ ((finish_alfred_transaction alloc now g changed k mac id).ret = 1 →
        (finish_alfred_transaction alloc now g changed k mac id).g.transaction_hash
          = transaction_clean g.transaction_hash mac id)
    ∧ (head.txend_packets ≠ head.num_packet →
        finish_alfred_transaction alloc now g changed k mac id = ⟨g, changed, k, 0⟩)
    ∧ (head.txend_packets = 0 →
        ((finish_alfred_transaction alloc now g changed k mac id).ret = 1
          ↔ head.num_packet = 0)) := by
  by_cases hfin : transaction_finished head = true
  · have heq : head.txend_packets = head.num_packet := by
      have h2 := hfin
      rw [transaction_finished] at h2
      exact beq_iff_eq.mp h2
    rw [finish_transaction_of_finished htx hfin]
    refine ⟨⟨fun _ => heq, fun _ => rfl⟩, fun _ => rfl, fun hc => absurd heq hc, ?_⟩
    intro h0
    constructor
    · intro _
      omega
    · intro _
      rfl
  · have hne : head.txend_packets ≠ head.num_packet := by
      intro hc
      apply hfin
      rw [transaction_finished]
      exact beq_iff_eq.mpr hc
    rw [finish_transaction_of_not_finished htx (by
      cases hb : transaction_finished head with
      | true => exact absurd hb hfin
      | false => rfl)]
    refine ⟨⟨fun hc => by simp at hc, fun hc => absurd hc hne⟩,
      ?_, fun _ => rfl, ?_⟩
    · intro hc
      simp at hc
    · intro h0
      constructor
      · intro hc
        simp at hc
      · intro hc
        exact absurd (by omega : head.txend_packets = head.num_packet) hne

/-- C3 witness: an empty known transaction with recorded expected seqno 0
is completed by the modelled predicate (the completion test holds). -/
theorem C3_witness :
    (finish_alfred_transaction allocAll 5
        { data_hash := [],
          transaction_hash := [⟨[1,2,3,4,5,6], 7, 0, 0, 0, -1, 0, []⟩],
          server_hash := [], opmode := .OPMODE_MASTER }
        [] 0 [1,2,3,4,5,6] 7).ret = 1 :=
  ((C3_completion_is_count_equality allocAll 5 _ [] 0 [1,2,3,4,5,6] 7
      ⟨[1,2,3,4,5,6], 7, 0, 0, 0, -1, 0, []⟩ (by decide)).1).mpr rfl

/-- C2 counterexample: a completed transaction carrying two records under
the SAME key (type 9, source 01:02:03:04:05:06) with payloads [7] and [8]:
the claim as stated requires the store to afterwards hold an entry whose
payload equals EACH carried record's payload, in particular [7], but the
store holds exactly one entry under the key and its payload is [8] (the
later record overwrote the earlier one); the record with payload [7] is
carried by the delivered fragments and no LOCAL entry pre-existed. -/
theorem C2_counterexample :
    data_find (finish_alfred_transaction allocAll 100
        { data_hash := []
          transaction_hash := [⟨[9,9,9,9,9,9], 5, 0, 1, 1, -1, 0,
            [⟨0, 26, 5, 0,
              [1,2,3,4,5,6, 9, 2, 0,1, 7, 1,2,3,4,5,6, 9, 2, 0,1, 8]⟩]⟩]
          server_hash := []
          opmode := .OPMODE_MASTER }
        [] 0 [9,9,9,9,9,9] 5).g.data_hash 9 [1,2,3,4,5,6]
      = some ⟨[1,2,3,4,5,6], 9, 2, 1, some [8], .SOURCE_SYNCED, 100⟩
    ∧ (⟨[1,2,3,4,5,6], 9, 2, 1, [7]⟩ : DataRecord) ∈ transaction_records
        ⟨[9,9,9,9,9,9], 5, 0, 1, 1, -1, 0,
          [⟨0, 26, 5, 0,
            [1,2,3,4,5,6, 9, 2, 0,1, 7, 1,2,3,4,5,6, 9, 2, 0,1, 8]⟩]⟩ := by
  constructor
  · have htx : tx_find
        ({ data_hash := []
           transaction_hash := [⟨[9,9,9,9,9,9], 5, 0, 1, 1, -1, 0,
             [⟨0, 26, 5, 0,
               [1,2,3,4,5,6, 9, 2, 0,1, 7, 1,2,3,4,5,6, 9, 2, 0,1, 8]⟩]⟩]
           server_hash := []
           opmode := .OPMODE_MASTER } : Globals).transaction_hash
        [9,9,9,9,9,9] 5
        = some ⟨[9,9,9,9,9,9], 5, 0, 1, 1, -1, 0,
          [⟨0, 26, 5, 0,
            [1,2,3,4,5,6, 9, 2, 0,1, 7, 1,2,3,4,5,6, 9, 2, 0,1, 8]⟩]⟩ := by decide
    rw [finish_transaction_of_finished htx (by decide)]
    dsimp only
    rw [fold_finish_allocAll]
    rw [show (([(⟨0, 26, 5, 0,
        [1,2,3,4,5,6, 9, 2, 0,1, 7, 1,2,3,4,5,6, 9, 2, 0,1, 8]⟩ : PushData)].map
          fragment_records).flatten)
      = [⟨[1,2,3,4,5,6], 9, 2, 1, [7]⟩, ⟨[1,2,3,4,5,6], 9, 2, 1, [8]⟩] from by
      simp [fragment_records, parse_records.eq_def, read_u16_be, List.getD]]
    decide
  · simp [transaction_records, fragment_records, parse_records.eq_def,
      read_u16_be, List.getD]

/-- C2: when a transaction from sender S completes, every record r carried
by its delivered fragments such that no LOCAL entry existed under key
(r.type, r.src_hwaddr) AND no later record of the same transaction carries
the same key (the amendment the counterexample forces: with duplicate keys
the last record in delivery order wins) ends up in the store under its key
with exactly r's payload bytes, length and version, and provenance
FIRST_HAND when r.src_hwaddr = S, SYNCED otherwise. -/
theorem C2_completed_transaction_merges (now : Nat) (g : Globals) (k : Nat)
    (S : Mac) (id : Nat) (head : TransactionHead) (r : DataRecord)
    (l1 l2 : List DataRecord)
    (htx : tx_find g.transaction_hash S id = some head)
    (hfin : transaction_finished head = true)
    (hsplit : transaction_records head = l1 ++ r :: l2)
    (hlast : ∀ r2, r2 ∈ l2 → ¬ (r.dtype = r2.dtype ∧ r.source = r2.source))
    (hnl : ∀ d, data_find g.data_hash r.dtype r.source = some d →
      d.data_source ≠ .SOURCE_LOCAL) :
    ∃ ds, data_find (finish_alfred_transaction allocAll now g [] k S id).g.data_hash
        r.dtype r.source = some ds
      ∧ ds.buf = some r.payload ∧ ds.length = r.length ∧ ds.version = r.version
      ∧ ds.data_source = (if S = r.source then DataSource.SOURCE_FIRST_HAND
          else DataSource.SOURCE_SYNCED) := by
  rw [finish_transaction_of_finished htx hfin]
  dsimp only
  rw [fold_finish_allocAll]
  rw [show ((head.packet_list.map fragment_records).flatten)
    = transaction_records head from rfl]
  rw [hsplit]
  exact ⟨merged_dataset now S r, fold_merge_last hnl hlast, rfl, rfl, rfl, rfl⟩

/-- C2 witness: a completed single-fragment transaction carrying one record
of type 9 from source 01:02:03:04:05:06 (payload [7]) leaves exactly that
record in the store with provenance SYNCED (the sender differs from the
record source). -/
theorem C2_witness :
    ∃ ds, data_find (finish_alfred_transaction allocAll 100
        { data_hash := []
          transaction_hash := [⟨[9,9,9,9,9,9], 5, 0, 1, 1, -1, 0,
            [⟨0, 15, 5, 0, [1,2,3,4,5,6, 9, 2, 0,1, 7]⟩]⟩]
          server_hash := []
          opmode := .OPMODE_MASTER }
        [] 0 [9,9,9,9,9,9] 5).g.data_hash 9 [1,2,3,4,5,6] = some ds
      ∧ ds.buf = some [7] ∧ ds.length = 1 ∧ ds.version = 2
      ∧ ds.data_source = (if [9,9,9,9,9,9] = ([1,2,3,4,5,6] : Mac)
          then DataSource.SOURCE_FIRST_HAND else DataSource.SOURCE_SYNCED) :=
  C2_completed_transaction_merges 100 _ 0 [9,9,9,9,9,9] 5
    ⟨[9,9,9,9,9,9], 5, 0, 1, 1, -1, 0,
      [⟨0, 15, 5, 0, [1,2,3,4,5,6, 9, 2, 0,1, 7]⟩]⟩
    ⟨[1,2,3,4,5,6], 9, 2, 1, [7]⟩ [] []
    (by decide) (by decide)
    (by simp [transaction_records, fragment_records, parse_records.eq_def,
      read_u16_be, List.getD])
    (by simp)
    (fun d hd => by simp [data_find] at hd)

/-- C4 counterexample: two allocation-failure runs refute the rollback
claim. First, on a master an inbound PUSH_DATA for an unknown id whose
second allocation (the fragment holder) fails returns an error, yet the
freshly created transaction head REMAINS in the table. Second, a PUSH_DATA
completing a known transaction whose payload-buffer allocation fails during
the merge leaves a dataset entry with an ABSENT payload buffer in the
store, the changed signal for that very record already emitted, and the
transaction completes with return value 1, so no error reaches the caller:
the state is not what it was before the packet. -/
theorem C4_counterexample :
    ((process_alfred_push_data (fun n => n == 0) 0 100
        { data_hash := []
          transaction_hash := []
          server_hash := []
          opmode := .OPMODE_MASTER }
        [9,9,9,9,9,9] ⟨0, 15, 5, 0, [1,2,3,4,5,6, 9, 2, 0,1, 7]⟩).ret = -1
      ∧ (tx_find (process_alfred_push_data (fun n => n == 0) 0 100
        { data_hash := []
          transaction_hash := []
          server_hash := []
          opmode := .OPMODE_MASTER }
        [9,9,9,9,9,9] ⟨0, 15, 5, 0, [1,2,3,4,5,6, 9, 2, 0,1, 7]⟩).g.transaction_hash
        [9,9,9,9,9,9] 5).isSome = true)
    ∧ ((finish_alfred_transaction (fun n => n == 0) 100
        { data_hash := []
          transaction_hash := [⟨[9,9,9,9,9,9], 5, 0, 1, 1, -1, 0,
            [⟨0, 15, 5, 0, [1,2,3,4,5,6, 9, 2, 0,1, 7]⟩]⟩]
          server_hash := []
          opmode := .OPMODE_MASTER }
        [] 0 [9,9,9,9,9,9] 5).ret = 1
      ∧ (finish_alfred_transaction (fun n => n == 0) 100
        { data_hash := []
          transaction_hash := [⟨[9,9,9,9,9,9], 5, 0, 1, 1, -1, 0,
            [⟨0, 15, 5, 0, [1,2,3,4,5,6, 9, 2, 0,1, 7]⟩]⟩]
          server_hash := []
          opmode := .OPMODE_MASTER }
        [] 0 [9,9,9,9,9,9] 5).g.data_hash
        = [⟨[1,2,3,4,5,6], 9, 2, 1, none, .SOURCE_SYNCED, 100⟩]
      ∧ (finish_alfred_transaction (fun n => n == 0) 100
        { data_hash := []
          transaction_hash := [⟨[9,9,9,9,9,9], 5, 0, 1, 1, -1, 0,
            [⟨0, 15, 5, 0, [1,2,3,4,5,6, 9, 2, 0,1, 7]⟩]⟩]
          server_hash := []
          opmode := .OPMODE_MASTER }
        [] 0 [9,9,9,9,9,9] 5).changed = [9]) := by
  constructor
  · exact ⟨by decide, by decide⟩
  · have hfin := @finish_transaction_of_finished (fun n => n == 0) 100
      { data_hash := []
        transaction_hash := [⟨[9,9,9,9,9,9], 5, 0, 1, 1, -1, 0,
          [⟨0, 15, 5, 0, [1,2,3,4,5,6, 9, 2, 0,1, 7]⟩]⟩]
        server_hash := []
        opmode := .OPMODE_MASTER }
      [] 0 [9,9,9,9,9,9] 5
      ⟨[9,9,9,9,9,9], 5, 0, 1, 1, -1, 0,
        [⟨0, 15, 5, 0, [1,2,3,4,5,6, 9, 2, 0,1, 7]⟩]⟩
      (by decide) (by decide)
    rw [hfin]
    have hfold : ([(⟨0, 15, 5, 0, [1,2,3,4,5,6, 9, 2, 0,1, 7]⟩ : PushData)].foldl
        (fun ms p =>
          (finish_alfred_push_data (fun n => n == 0) 100 [9,9,9,9,9,9] ms p).1)
        ⟨[], [], 0⟩)
        = (⟨[⟨[1,2,3,4,5,6], 9, 2, 1, none, .SOURCE_SYNCED, 100⟩], [9], 2⟩
          : MergeState) := by
      rw [List.foldl_cons, List.foldl_nil]
      unfold finish_alfred_push_data
      rw [merge_loop.eq_def]
      decide
    rw [hfold]
    exact ⟨rfl, rfl, rfl⟩

/-- C4 amended: allocation failure aborts the processing of the packet but
applied mutations are kept, not rolled back. For a known transaction, a
failing fragment allocation returns -1 with the store, fragment list and
count unchanged (only last_rx_time is refreshed). For an unknown id on a
master, a failing fragment allocation after a successful head allocation
returns -1 but the freshly created empty transaction head stays in the
table. A failing payload-buffer allocation inside the merge leaves the
affected entry in the store with its payload buffer freed (and length 0
when a buffer was freed) after the changed signal was already emitted, and
only reports failure to the (ignored) per-fragment return value. -/
theorem C4_alloc_failure_keeps_mutations :
    (∀ (alloc : Nat → Bool) (k now : Nat) (g : Globals) (mac : Mac)
      (push : PushData) (head : TransactionHead),
      ¬ push.length < 4 →
      tx_find g.transaction_hash mac push.tx_id = some head →
      (head.packet_list.find? (fun p => p.seqno == push.seqno)).isSome = false →
      alloc k = false →
      process_alfred_push_data alloc k now g mac push =
        ⟨{ g with
           transaction_hash := tx_update g.transaction_hash mac push.tx_id
             (fun h => { h with last_rx_time := now }) },
         [], k + 1, -1⟩)
    ∧ (∀ (alloc : Nat → Bool) (k now : Nat) (g : Globals) (mac : Mac)
      (push : PushData),
      ¬ push.length < 4 →
      tx_find g.transaction_hash mac push.tx_id = none →
      g.opmode = .OPMODE_MASTER →
      alloc k = true → alloc (k + 1) = false →
      process_alfred_push_data alloc k now g mac push =
        ⟨{ g with
           transaction_hash :=
             tx_update
               (g.transaction_hash ++ [⟨mac, push.tx_id, 0, 0, 0, -1, now, []⟩])
               mac push.tx_id (fun h => { h with last_rx_time := now }) },
         [], k + 2, -1⟩)
    ∧ (∀ (alloc : Nat → Bool) (now : Nat) (mac : Mac) (s : MergeState)
      (r : DataRecord) (ds0 : Dataset),
      data_find s.store r.dtype r.source = some ds0 →
      ds0.data_source ≠ .SOURCE_LOCAL →
      alloc s.k = false →
      merge_record alloc now mac s r =
        (⟨data_update s.store r.dtype r.source (fun _ =>
            { ds0 with
              last_seen := now
              buf := none
              length := if ds0.buf.isSome then 0 else ds0.length }),
          if ds0.length ≠ r.length ∨ ds0.buf.getD [] ≠ r.payload
            then s.changed ++ [r.dtype] else s.changed,
          s.k + 1⟩, false)) := by
  refine ⟨?_, ?_, ?_⟩
  · intro alloc k now g mac push head h4 htx hdup ha
    exact push_known_frag_fail_eq h4 htx hdup ha
  · intro alloc k now g mac push h4 htx hm ha hb
    exact push_unknown_master_frag_fail_eq h4 htx hm ha hb
  · intro alloc now mac s r ds0 hfind hl ha
    exact merge_record_buf_fail_eq hfind hl ha

/-- C4 witness: the known-transaction fragment-allocation failure at a
concrete input: error returned, only last_rx refreshed. -/
theorem C4_witness :
    process_alfred_push_data (fun _ => false) 0 300
      { data_hash := []
        transaction_hash := [⟨[9,9,9,9,9,9], 5, 0, 0, 0, -1, 0, []⟩]
        server_hash := []
        opmode := .OPMODE_MASTER }
      [9,9,9,9,9,9] ⟨0, 15, 5, 0, [1,2,3,4,5,6, 9, 2, 0,1, 7]⟩ =
      ⟨{ data_hash := []
         transaction_hash := tx_update [⟨[9,9,9,9,9,9], 5, 0, 0, 0, -1, 0, []⟩]
           [9,9,9,9,9,9] 5 (fun h => { h with last_rx_time := 300 })
         server_hash := []
         opmode := .OPMODE_MASTER },
       [], 1, -1⟩ :=
  C4_alloc_failure_keeps_mutations.1 (fun _ => false) 0 300 _ [9,9,9,9,9,9]
    ⟨0, 15, 5, 0, [1,2,3,4,5,6, 9, 2, 0,1, 7]⟩
    ⟨[9,9,9,9,9,9], 5, 0, 0, 0, -1, 0, []⟩
    (by decide) (by decide) (by decide) rfl

theorem push_slave_unknown_eq {alloc : Nat → Bool} {k now : Nat} {g : Globals}
    {mac : Mac} {push : PushData}
    (h4 : ¬ push.length < 4)
    (htx : tx_find g.transaction_hash mac push.tx_id = none)
    (hm : g.opmode ≠ .OPMODE_MASTER) :
    process_alfred_push_data alloc k now g mac push = ⟨g, [], k, -1⟩ := by
  unfold process_alfred_push_data
  rw [if_neg h4, htx]
  dsimp only
  rw [if_pos hm]

theorem txend_known_eq {alloc : Nat → Bool} {k now : Nat} {g : Globals}
    {mac : Mac} {st : StatusPacket} {head : TransactionHead}
    (hv : st.version = ALFRED_VERSION) (h4 : ¬ st.length < 4)
    (htx : tx_find g.transaction_hash mac st.tx_id = some head) :
    process_alfred_status_txend alloc k now g mac st
      = txend_into_transaction alloc k now g mac st := by
  unfold process_alfred_status_txend
  rw [if_neg (by simp [hv]), if_neg h4, htx]

theorem txend_slave_unknown_eq {alloc : Nat → Bool} {k now : Nat} {g : Globals}
    {mac : Mac} {st : StatusPacket}
    (hv : st.version = ALFRED_VERSION) (h4 : ¬ st.length < 4)
    (htx : tx_find g.transaction_hash mac st.tx_id = none)
    (hm : g.opmode ≠ .OPMODE_MASTER) :
    process_alfred_status_txend alloc k now g mac st = ⟨g, [], k, -1⟩ := by
  unfold process_alfred_status_txend
  rw [if_neg (by simp [hv]), if_neg h4, htx]
  dsimp only
  rw [if_pos hm]

theorem txend_zero_unknown_eq {alloc : Nat → Bool} {k now : Nat} {g : Globals}
    {mac : Mac} {st : StatusPacket}
    (hv : st.version = ALFRED_VERSION) (h4 : ¬ st.length < 4)
    (htx : tx_find g.transaction_hash mac st.tx_id = none)
    (hm : g.opmode = .OPMODE_MASTER) (h0 : st.seqno = 0) :
    process_alfred_status_txend alloc k now g mac st = ⟨g, [], k, -1⟩ := by
  unfold process_alfred_status_txend
  rw [if_neg (by simp [hv]), if_neg h4, htx]
  dsimp only
  rw [if_neg (by simp [hm]), if_pos h0]

/-- C5: with allocations succeeding, an inbound packet creates a new
transaction record exactly when the node is a master and the packet is a
PUSH_DATA for an unknown (peer, tx_id) or a STATUS_TXEND with nonzero
seqno for an unknown (peer, tx_id); stray packets on slaves, zero-seqno
STATUS_TXEND for unknown ids, ANNOUNCE_MASTER and REQUEST packets create
nothing, at any key. -/
theorem C5_transaction_creation_iff :
    (∀ (k now : Nat) (g : Globals) (mac : Mac) (p : PushData) (m : Mac) (i : Nat),
      p.version = ALFRED_VERSION → ¬ p.length < 4 →
      (creates_transaction g.transaction_hash
          (recv_alfred_packet allocAll k now g mac (Packet.push p)).g.transaction_hash
          m i
        ↔ (g.opmode = .OPMODE_MASTER ∧ m = mac ∧ i = p.tx_id
            ∧ tx_find g.transaction_hash mac p.tx_id = none)))
    ∧ (∀ (k now : Nat) (g : Globals) (mac : Mac) (st : StatusPacket) (m : Mac) (i : Nat),
      st.version = ALFRED_VERSION → ¬ st.length < 4 →
      (creates_transaction g.transaction_hash
          (recv_alfred_packet allocAll k now g mac (Packet.txend st)).g.transaction_hash
          m i
        ↔ (g.opmode = .OPMODE_MASTER ∧ m = mac ∧ i = st.tx_id ∧ st.seqno ≠ 0
            ∧ tx_find g.transaction_hash mac st.tx_id = none)))
    ∧ (∀ (k now : Nat) (g : Globals) (mac : Mac) (a : AnnouncePacket) (m : Mac) (i : Nat),
      ¬ creates_transaction g.transaction_hash
          (recv_alfred_packet allocAll k now g mac (Packet.announce a)).g.transaction_hash
          m i)
    ∧ (∀ (k now : Nat) (g : Globals) (mac : Mac) (r : RequestPacket) (m : Mac) (i : Nat),
      ¬ creates_transaction g.transaction_hash
          (recv_alfred_packet allocAll k now g mac (Packet.request r)).g.transaction_hash
          m i) := by
  refine ⟨?_, ?_, ?_, ?_⟩
  · intro k now g mac p m i hv h4
    have hrecv : recv_alfred_packet allocAll k now g mac (Packet.push p)
        = process_alfred_push_data allocAll k now g mac p := by
      unfold recv_alfred_packet
      rw [if_neg (by simp [Packet.version, hv])]
    rw [hrecv]
    constructor
    · rintro ⟨hnone, hsome⟩
      cases htx0 : tx_find g.transaction_hash mac p.tx_id with
      | some head =>
        have h5 : process_alfred_push_data allocAll k now g mac p
            = push_data_into_transaction allocAll k now g mac p := by
          unfold process_alfred_push_data
          rw [if_neg h4, htx0]
        rw [h5] at hsome
        have h6 := push_into_tx_isSome_mono hsome
        rw [hnone] at h6
        simp at h6
      | none =>
        by_cases hm : g.opmode = .OPMODE_MASTER
        · rw [push_unknown_master_eq h4 htx0 hm] at hsome
          dsimp only at hsome
          have e1 := @tx_find_update_isSome
            (tx_update
              (g.transaction_hash ++ [⟨mac, p.tx_id, 0, 0, 0, -1, now, []⟩])
              mac p.tx_id (fun h => { h with last_rx_time := now }))
            mac p.tx_id
            (fun h =>
              { h with
                packet_list := h.packet_list ++
                  [{ p with data := p.data.take (p.length - 4) }]
                num_packet := h.num_packet + 1 })
            (fun h2 ha hb => ⟨ha, hb⟩) m i
          rw [e1] at hsome
          have e2 := @tx_find_update_isSome
            (g.transaction_hash ++ [⟨mac, p.tx_id, 0, 0, 0, -1, now, []⟩])
            mac p.tx_id (fun h => { h with last_rx_time := now })
            (fun h2 ha hb => ⟨ha, hb⟩) m i
          rw [e2] at hsome
          by_cases hk : m = mac ∧ i = p.tx_id
          · exact ⟨hm, hk.1, hk.2, rfl⟩
          · rw [tx_find_append_other (by
              intro hc
              exact hk ⟨hc.1.symm, hc.2.symm⟩)] at hsome
            rw [hnone] at hsome
            simp at hsome
        · rw [push_slave_unknown_eq h4 htx0 hm] at hsome
          rw [hnone] at hsome
          simp at hsome
    · rintro ⟨hm, hmeq, hieq, hunk⟩
      subst hmeq
      subst hieq
      refine ⟨hunk, ?_⟩
      rw [push_unknown_master_eq h4 hunk hm]
      dsimp only
      have hfind1 : tx_find (g.transaction_hash ++
          [(⟨m, p.tx_id, 0, 0, 0, -1, now, []⟩ : TransactionHead)]) m p.tx_id
          = some ⟨m, p.tx_id, 0, 0, 0, -1, now, []⟩ := by
        rw [tx_find_append_none _ hunk]
        exact if_pos ⟨rfl, rfl⟩
      have hfind2 := @tx_find_update_self
        (g.transaction_hash ++ [⟨m, p.tx_id, 0, 0, 0, -1, now, []⟩])
        m p.tx_id ⟨m, p.tx_id, 0, 0, 0, -1, now, []⟩
        (fun h => { h with last_rx_time := now }) hfind1 ⟨rfl, rfl⟩
      have hfind3 := @tx_find_update_self _ m p.tx_id _
        (fun h =>
          { h with
            packet_list := h.packet_list ++
              [{ p with data := p.data.take (p.length - 4) }]
            num_packet := h.num_packet + 1 })
        hfind2 ⟨rfl, rfl⟩
      rw [hfind3]
      rfl
  · intro k now g mac st m i hv h4
    have hrecv : recv_alfred_packet allocAll k now g mac (Packet.txend st)
        = process_alfred_status_txend allocAll k now g mac st := by
      unfold recv_alfred_packet
      rw [if_neg (by simp [Packet.version, hv])]
    rw [hrecv]
    constructor
    · rintro ⟨hnone, hsome⟩
      cases htx0 : tx_find g.transaction_hash mac st.tx_id with
      | some head =>
        rw [txend_known_eq hv h4 htx0] at hsome
        have h6 := txend_into_tx_isSome_mono hsome
        rw [hnone] at h6
        simp at h6
      | none =>
        by_cases hm : g.opmode = .OPMODE_MASTER
        · by_cases h0 : st.seqno = 0
          · rw [txend_zero_unknown_eq hv h4 htx0 hm h0] at hsome
            rw [hnone] at hsome
            simp at hsome
          · rw [txend_unknown_master_eq hv h4 htx0 hm h0] at hsome
            dsimp only at hsome
            have e2 := @tx_find_update_isSome
              (g.transaction_hash ++ [⟨mac, st.tx_id, 0, 0, 0, -1, now, []⟩])
              mac st.tx_id
              (fun h => { h with last_rx_time := now, txend_packets := st.seqno })
              (fun h2 ha hb => ⟨ha, hb⟩) m i
            rw [e2] at hsome
            by_cases hk : m = mac ∧ i = st.tx_id
            · exact ⟨hm, hk.1, hk.2, h0, rfl⟩
            · rw [tx_find_append_other (by
                intro hc
                exact hk ⟨hc.1.symm, hc.2.symm⟩)] at hsome
              rw [hnone] at hsome
              simp at hsome
        · rw [txend_slave_unknown_eq hv h4 htx0 hm] at hsome
          rw [hnone] at hsome
          simp at hsome
    · rintro ⟨hm, hmeq, hieq, h0, hunk⟩
      subst hmeq
      subst hieq
      refine ⟨hunk, ?_⟩
      rw [txend_unknown_master_eq hv h4 hunk hm h0]
      dsimp only
      have hfind1 : tx_find (g.transaction_hash ++
          [(⟨m, st.tx_id, 0, 0, 0, -1, now, []⟩ : TransactionHead)]) m st.tx_id
          = some ⟨m, st.tx_id, 0, 0, 0, -1, now, []⟩ := by
        rw [tx_find_append_none _ hunk]
        exact if_pos ⟨rfl, rfl⟩
      have hfind2 := @tx_find_update_self
        (g.transaction_hash ++ [⟨m, st.tx_id, 0, 0, 0, -1, now, []⟩])
        m st.tx_id ⟨m, st.tx_id, 0, 0, 0, -1, now, []⟩
        (fun h => { h with last_rx_time := now, txend_packets := st.seqno })
        hfind1 ⟨rfl, rfl⟩
      rw [hfind2]
      rfl
  · intro k now g mac a m i
    rintro ⟨hnone, hsome⟩
    have hun : (recv_alfred_packet allocAll k now g mac
        (Packet.announce a)).g.transaction_hash = g.transaction_hash := by
      unfold recv_alfred_packet
      by_cases hv : (Packet.announce a).version ≠ ALFRED_VERSION
      · rw [if_pos hv]
      · rw [if_neg hv]
        dsimp only
        exact announce_tx_unchanged
    rw [hun, hnone] at hsome
    simp at hsome
  · intro k now g mac r m i
    rintro ⟨hnone, hsome⟩
    have hun : (recv_alfred_packet allocAll k now g mac
        (Packet.request r)).g.transaction_hash = g.transaction_hash := by
      unfold recv_alfred_packet
      by_cases hv : (Packet.request r).version ≠ ALFRED_VERSION
      · rw [if_pos hv]
      · rw [if_neg hv]
    rw [hun, hnone] at hsome
    simp at hsome

/-- C5 witness: a master receiving a PUSH_DATA for unknown tx id 5 creates
the transaction record under exactly that key. -/
theorem C5_witness :
    creates_transaction
      ([] : List TransactionHead)
      (recv_alfred_packet allocAll 0 100
        { data_hash := []
          transaction_hash := []
          server_hash := []
          opmode := .OPMODE_MASTER }
        [9,9,9,9,9,9]
        (Packet.push ⟨0, 15, 5, 0, [1,2,3,4,5,6, 9, 2, 0,1, 7]⟩)).g.transaction_hash
      [9,9,9,9,9,9] 5 :=
  (C5_transaction_creation_iff.1 0 100
    { data_hash := []
      transaction_hash := []
      server_hash := []
      opmode := .OPMODE_MASTER }
    [9,9,9,9,9,9] ⟨0, 15, 5, 0, [1,2,3,4,5,6, 9, 2, 0,1, 7]⟩
    [9,9,9,9,9,9] 5 rfl (by decide)).mpr ⟨rfl, rfl, rfl, rfl⟩

theorem push_step_nomatch {maxPayload : Nat} {lvl : DataSource} {filt : Int}
    {tid : Nat} {st : PushState} {ds : Dataset}
    (h : ¬ push_matches lvl filt ds) :
    push_data_step maxPayload lvl filt tid st ds = st := by
  unfold push_data_step
  by_cases hsrc : ds.data_source.val > lvl.val
  · rw [if_pos hsrc]
  · rw [if_neg hsrc]
    have hB : 0 ≤ filt ∧ Int.ofNat ds.dtype ≠ filt := by
      unfold push_matches at h
      push_neg at h
      exact h (by omega)
    rw [if_pos hB]

theorem push_fold_nomatch {maxPayload : Nat} {lvl : DataSource} {filt : Int}
    {tid : Nat} :
    ∀ (store : List Dataset) (st : PushState),
    (∀ ds, ds ∈ store → ¬ push_matches lvl filt ds) →
    store.foldl (push_data_step maxPayload lvl filt tid) st = st := by
  intro store
  induction store with
  | nil =>
    intro st _
    rfl
  | cons ds store ih =>
    intro st h
    rw [List.foldl_cons, push_step_nomatch (h ds (List.mem_cons_self _ _))]
    exact ih st (fun d hd => h d (List.mem_cons_of_mem _ hd))

/-- C6: every datagram push_data emits is at most maxPayload bytes on the
wire (8 ≤ maxPayload ≤ 65535 scopes the model to the uint16 regime of the
source), and every record carried inside an emitted PUSH_DATA fragment fits
by itself below maxPayload - 8, so an eligible dataset whose single record
exceeds that bound appears in no emitted datagram. -/
theorem C6_mtu_bound (maxPayload : Nat) (store : List Dataset)
    (lvl : DataSource) (filt : Int) (tid : Nat)
    (h8 : 8 ≤ maxPayload) (h16 : maxPayload ≤ 65535) :
    (∀ p, p ∈ push_data maxPayload store lvl filt tid →
      p.wire_length ≤ maxPayload)
    ∧ (∀ tid2 sq rs, OutPacket.push_frag tid2 sq rs ∈ push_data maxPayload store lvl filt tid →
        ∀ r, r ∈ rs → record_wire_size r ≤ maxPayload - 8) := by
  have hinit : push_mtu_inv maxPayload ⟨[], 0, 0, []⟩ :=
    ⟨rfl, Nat.zero_le _, fun p hp => absurd hp (List.not_mem_nil p),
     fun t2 s2 rs hp => absurd hp (List.not_mem_nil _),
     fun r hr => absurd hr (List.not_mem_nil r)⟩
  have hinv := @push_fold_mtu maxPayload lvl filt tid h8 store ⟨[], 0, 0, []⟩ hinit
  have hinv1 : push_mtu_inv maxPayload
      (if (store.foldl (push_data_step maxPayload lvl filt tid)
          ⟨[], 0, 0, []⟩).total_length ≠ 0
       then push_flush tid
         (store.foldl (push_data_step maxPayload lvl filt tid) ⟨[], 0, 0, []⟩)
       else store.foldl (push_data_step maxPayload lvl filt tid) ⟨[], 0, 0, []⟩) := by
    by_cases hT : (store.foldl (push_data_step maxPayload lvl filt tid)
        ⟨[], 0, 0, []⟩).total_length ≠ 0
    · rw [if_pos hT]
      exact push_flush_mtu h8 hinv
    · rw [if_neg hT]
      exact hinv
  have hpd : push_data maxPayload store lvl filt tid
      = (if 0 < (if (store.foldl (push_data_step maxPayload lvl filt tid)
            ⟨[], 0, 0, []⟩).total_length ≠ 0
          then push_flush tid
            (store.foldl (push_data_step maxPayload lvl filt tid) ⟨[], 0, 0, []⟩)
          else store.foldl (push_data_step maxPayload lvl filt tid)
            ⟨[], 0, 0, []⟩).seqno ∨ filt ≠ NO_FILTER
        then (if (store.foldl (push_data_step maxPayload lvl filt tid)
            ⟨[], 0, 0, []⟩).total_length ≠ 0
          then push_flush tid
            (store.foldl (push_data_step maxPayload lvl filt tid) ⟨[], 0, 0, []⟩)
          else store.foldl (push_data_step maxPayload lvl filt tid)
            ⟨[], 0, 0, []⟩).out ++
          [OutPacket.status_txend tid
            (if (store.foldl (push_data_step maxPayload lvl filt tid)
                ⟨[], 0, 0, []⟩).total_length ≠ 0
              then push_flush tid
                (store.foldl (push_data_step maxPayload lvl filt tid) ⟨[], 0, 0, []⟩)
              else store.foldl (push_data_step maxPayload lvl filt tid)
                ⟨[], 0, 0, []⟩).seqno]
        else (if (store.foldl (push_data_step maxPayload lvl filt tid)
            ⟨[], 0, 0, []⟩).total_length ≠ 0
          then push_flush tid
            (store.foldl (push_data_step maxPayload lvl filt tid) ⟨[], 0, 0, []⟩)
          else store.foldl (push_data_step maxPayload lvl filt tid)
            ⟨[], 0, 0, []⟩).out) := rfl
  generalize hS : (if (store.foldl (push_data_step maxPayload lvl filt tid)
      ⟨[], 0, 0, []⟩).total_length ≠ 0
    then push_flush tid
      (store.foldl (push_data_step maxPayload lvl filt tid) ⟨[], 0, 0, []⟩)
    else store.foldl (push_data_step maxPayload lvl filt tid)
      ⟨[], 0, 0, []⟩) = s1 at hpd hinv1
  constructor
  · intro p hp
    rw [hpd] at hp
    by_cases hE : 0 < s1.seqno ∨ filt ≠ NO_FILTER
    · rw [if_pos hE] at hp
      rw [List.mem_append] at hp
      cases hp with
      | inl hp => exact hinv1.2.2.1 p hp
      | inr hp =>
        rw [List.mem_singleton] at hp
        subst hp
        exact h8
    · rw [if_neg hE] at hp
      exact hinv1.2.2.1 p hp
  · intro tid2 sq rs hp r hr
    rw [hpd] at hp
    by_cases hE : 0 < s1.seqno ∨ filt ≠ NO_FILTER
    · rw [if_pos hE] at hp
      rw [List.mem_append] at hp
      cases hp with
      | inl hp => exact hinv1.2.2.2.1 tid2 sq rs hp r hr
      | inr hp =>
        rw [List.mem_singleton] at hp
        cases hp
    · rw [if_neg hE] at hp
      exact hinv1.2.2.2.1 tid2 sq rs hp r hr

/-- C6 witness: a store with a 5-byte dataset and a 90-byte dataset pushed
with maxPayload 100: every emitted datagram is at most 100 bytes and every
emitted record fits in 92 bytes (the 100-byte record is silently skipped). -/
theorem C6_witness :
    (∀ p, p ∈ push_data 100
        [⟨[1,2,3,4,5,6], 2, 0, 5, some [1,2,3,4,5], .SOURCE_SYNCED, 0⟩,
         ⟨[1,2,3,4,5,6], 1, 0, 90, some (List.replicate 90 1), .SOURCE_SYNCED, 0⟩]
        .SOURCE_SYNCED (-1) 1 → p.wire_length ≤ 100)
    ∧ (∀ tid2 sq rs, OutPacket.push_frag tid2 sq rs ∈ push_data 100
        [⟨[1,2,3,4,5,6], 2, 0, 5, some [1,2,3,4,5], .SOURCE_SYNCED, 0⟩,
         ⟨[1,2,3,4,5,6], 1, 0, 90, some (List.replicate 90 1), .SOURCE_SYNCED, 0⟩]
        .SOURCE_SYNCED (-1) 1 →
        ∀ r, r ∈ rs → record_wire_size r ≤ 92) :=
  C6_mtu_bound 100
    [⟨[1,2,3,4,5,6], 2, 0, 5, some [1,2,3,4,5], .SOURCE_SYNCED, 0⟩,
     ⟨[1,2,3,4,5,6], 1, 0, 90, some (List.replicate 90 1), .SOURCE_SYNCED, 0⟩]
    .SOURCE_SYNCED (-1) 1 (by decide) (by decide)

/-- C7: push_data always emits its fragments followed by a STATUS_TXEND
carrying the same tx_id and seqno equal to the number of PUSH_DATA
fragments emitted, exactly when at least one fragment went out or a type
filter was given; a filtered request matching no dataset yields exactly one
STATUS_TXEND with seqno 0 and no PUSH_DATA, and an unfiltered push matching
nothing emits nothing at all. -/
theorem C7_txend_emission (maxPayload : Nat) (store : List Dataset)
    (lvl : DataSource) (filt : Int) (tid : Nat) :
    (∃ frags : List OutPacket,
      (∀ p, p ∈ frags → p.is_push_frag = true)
      ∧ push_data maxPayload store lvl filt tid
        = (if 0 < frags.length ∨ filt ≠ NO_FILTER
           then frags ++ [OutPacket.status_txend tid frags.length]
           else frags))
    ∧ ((∀ ds, ds ∈ store → ¬ push_matches lvl filt ds) →
        push_data maxPayload store lvl filt tid
          = (if filt ≠ NO_FILTER then [OutPacket.status_txend tid 0] else [])) := by
  have hcnt0 : push_count_inv (⟨[], 0, 0, []⟩ : PushState) :=
    ⟨rfl, fun p hp => absurd hp (List.not_mem_nil p)⟩
  have hcntf := @push_fold_count maxPayload lvl filt tid store ⟨[], 0, 0, []⟩ hcnt0
  have hcnt : push_count_inv
      (if (store.foldl (push_data_step maxPayload lvl filt tid)
          ⟨[], 0, 0, []⟩).total_length ≠ 0
       then push_flush tid
         (store.foldl (push_data_step maxPayload lvl filt tid) ⟨[], 0, 0, []⟩)
       else store.foldl (push_data_step maxPayload lvl filt tid) ⟨[], 0, 0, []⟩) := by
    by_cases hT : (store.foldl (push_data_step maxPayload lvl filt tid)
        ⟨[], 0, 0, []⟩).total_length ≠ 0
    · rw [if_pos hT]
      exact push_flush_count hcntf
    · rw [if_neg hT]
      exact hcntf
  have hpd : push_data maxPayload store lvl filt tid
      = (if 0 < (if (store.foldl (push_data_step maxPayload lvl filt tid)
            ⟨[], 0, 0, []⟩).total_length ≠ 0
          then push_flush tid
            (store.foldl (push_data_step maxPayload lvl filt tid) ⟨[], 0, 0, []⟩)
          else store.foldl (push_data_step maxPayload lvl filt tid)
            ⟨[], 0, 0, []⟩).seqno ∨ filt ≠ NO_FILTER
        then (if (store.foldl (push_data_step maxPayload lvl filt tid)
            ⟨[], 0, 0, []⟩).total_length ≠ 0
          then push_flush tid
            (store.foldl (push_data_step maxPayload lvl filt tid) ⟨[], 0, 0, []⟩)
          else store.foldl (push_data_step maxPayload lvl filt tid)
            ⟨[], 0, 0, []⟩).out ++
          [OutPacket.status_txend tid
            (if (store.foldl (push_data_step maxPayload lvl filt tid)
                ⟨[], 0, 0, []⟩).total_length ≠ 0
              then push_flush tid
                (store.foldl (push_data_step maxPayload lvl filt tid) ⟨[], 0, 0, []⟩)
              else store.foldl (push_data_step maxPayload lvl filt tid)
                ⟨[], 0, 0, []⟩).seqno]
        else (if (store.foldl (push_data_step maxPayload lvl filt tid)
            ⟨[], 0, 0, []⟩).total_length ≠ 0
          then push_flush tid
            (store.foldl (push_data_step maxPayload lvl filt tid) ⟨[], 0, 0, []⟩)
          else store.foldl (push_data_step maxPayload lvl filt tid)
            ⟨[], 0, 0, []⟩).out) := rfl
  generalize hS : (if (store.foldl (push_data_step maxPayload lvl filt tid)
      ⟨[], 0, 0, []⟩).total_length ≠ 0
    then push_flush tid
      (store.foldl (push_data_step maxPayload lvl filt tid) ⟨[], 0, 0, []⟩)
    else store.foldl (push_data_step maxPayload lvl filt tid)
      ⟨[], 0, 0, []⟩) = s1 at hpd hcnt
  constructor
  · refine ⟨s1.out, hcnt.2, ?_⟩
    have hlen : s1.seqno = s1.out.length := by
      rw [hcnt.1, List.filter_eq_self.mpr hcnt.2]
    rw [hpd, hlen]
  · intro hnm
    have hfold := @push_fold_nomatch maxPayload lvl filt tid store ⟨[], 0, 0, []⟩ hnm
    rw [hfold] at hS
    have hs1 : s1 = (⟨[], 0, 0, []⟩ : PushState) := by
      rw [← hS]
      simp
    subst hs1
    rw [hpd]
    by_cases hF : filt ≠ NO_FILTER
    · rw [if_pos hF, if_pos (Or.inr hF)]
      rfl
    · have hc : ¬ (0 < (⟨[], 0, 0, []⟩ : PushState).seqno ∨ filt ≠ NO_FILTER) := by
        intro hc
        cases hc with
        | inl h => exact Nat.lt_irrefl 0 h
        | inr h => exact hF h
      rw [if_neg hF, if_neg hc]

/-- C7 witness: pushing a store whose only dataset has type 2 under type
filter 7 emits exactly one STATUS_TXEND with the request tx_id 3 and seqno
0; the same store pushed unfiltered with nothing eligible emits nothing. -/
theorem C7_witness :
    push_data 100 [⟨[1,2,3,4,5,6], 2, 0, 5, some [1,2,3,4,5], .SOURCE_SYNCED, 0⟩]
      .SOURCE_SYNCED 7 3 = [OutPacket.status_txend 3 0] := by
  have h := (C7_txend_emission 100
    [⟨[1,2,3,4,5,6], 2, 0, 5, some [1,2,3,4,5], .SOURCE_SYNCED, 0⟩]
    .SOURCE_SYNCED 7 3).2 (by
      intro ds hds
      rw [List.mem_singleton] at hds
      subst hds
      intro hm
      exact absurd (hm.2 (by decide)) (by decide))
  rw [h]
  decide
